import Mathlib

/-!
Shallow embedding of `src/amethyst_assets/src/storage.rs` (asset storage
and processing engine) and verification of the frozen claims about it.

Modelling conventions.

Machine integers are modelled as `Nat` with explicit reductions modulo
`2 ^ w` exactly where the Rust code can overflow or truncate:
the allocator counter is a `usize` bumped with a wrapping `fetch_add`
(reduction modulo `2 ^ 64`), and `allocate_new` truncates it with
`as u32` (reduction modulo `2 ^ 32`).

Every `Arc<u32>` id cell created by the program is identified by the
index at which it was allocated: field `nextCell` of the store is the
next fresh index, `cellId i` is the `u32` value held by cell `i`, and
`external i` counts the strong references to cell `i` held outside the
store's own `handles` vector and `unused_handles` queue (user code,
queued `Processed` records, in-flight reload jobs).  The total strong
count of a cell is then `external` plus the cell's multiplicity in
`handles` and in `unused_handles`.  A `Handle` value is a reference to
one cell; `WeakHandle`s are referenced by cell index as well and do not
contribute to the strong count.

`VecStorage<(A, u32)>` is unsafe dense storage: reading a cell that the
bitset does not cover is undefined behaviour in Rust.  It is modelled as
`Nat → Option (α × Nat)` where `none` marks an uninitialized cell, and
the model surfaces a would-be undefined read as an `Except.error`.

Side effects that leave the store (calls to the per-record `tracker`
objects and to the `drop_fn` closure) are accumulated in an `Effects`
ghost log returned next to the store.
-/

/-- Two to the 32nd: the modulus of `u32` arithmetic. -/
def u32Mod : Nat := 2 ^ 32

/-- Two to the 64th: the modulus of `usize` arithmetic (64-bit target). -/
def usizeMod : Nat := 2 ^ 64

/-- A handle to an asset (`Handle<A>` in the source): shared ownership of
one refcounted `Arc<u32>` id cell, identified here by the cell's
allocation index.  The `PhantomData<A>` marker carries no data. -/
structure Handle where
  cell : Nat
deriving DecidableEq, Repr

/-- Error kinds crossing the processing pipeline (`amethyst_error::Error`
with the `error::Error` contexts used by `storage.rs`). -/
inductive AErr where
  | Asset (name : String)
  | Format (fmt : String)
  | UnusedHandle
  | Other (msg : String)
deriving DecidableEq, Repr

/-- Ghost record of one call into the external `Tracker` capability. -/
inductive TrackerEvent where
  | success
  | fail (id : Nat) (name : String) (err : AErr)
deriving DecidableEq, Repr

/-- Ghost log of the effects that leave the store during processing:
tracker notifications and assets handed to `drop_fn`. -/
structure Effects (α : Type) where
  tracker : List TrackerEvent
  dropped : List α
deriving DecidableEq, Repr

/-- The empty effects log. -/
def Effects.empty {α : Type} : Effects α := ⟨[], []⟩

/-- The asset storage (`AssetStorage<A>` in the source) plus the heap of
id cells it interacts with.  `α` is the asset type `A`, `ρ` the type of
reload objects `Box<dyn Reload<A::Data>>`.

Source fields: `assets` (VecStorage), `bitset`, `handles` (store-retained
strong handles, kept by cell index), `handle_alloc` (the `counter`
field), `reloads`, `unused_handles`.  Model-only heap fields: `cellId`,
`nextCell`, `external` (see the module docstring). -/
@[ext]
structure AssetStorage (α ρ : Type) where
  assets : Nat → Option (α × Nat)
  bitset : Nat → Bool
  handles : List Nat
  counter : Nat
  reloads : List (Nat × ρ)
  unusedHandles : List Nat
  cellId : Nat → Nat
  nextCell : Nat
  external : Nat → Nat

/-- The freshly created storage (`AssetStorage::new` / `Default`),
together with an empty cell heap. -/
def initStorage (α ρ : Type) : AssetStorage α ρ where
  assets := fun _ => none
  bitset := fun _ => false
  handles := []
  counter := 0
  reloads := []
  unusedHandles := []
  cellId := fun _ => 0
  nextCell := 0
  external := fun _ => 0

variable {α ρ : Type}

/-- Value of `handle.id()`: dereference the handle's id cell. -/
def handleId (s : AssetStorage α ρ) (h : Handle) : Nat :=
  s.cellId h.cell

/-- Total strong count of cell `c`: references held outside the store
plus the store's own copies in `handles` and `unused_handles`.  This is
what `Arc::strong_count(&self.id)` returns for a handle over cell `c`. -/
def strongCount (s : AssetStorage α ρ) (c : Nat) : Nat :=
  s.external c + s.handles.count c + s.unusedHandles.count c

/-- Value of `handle.is_unique()`: the strong count is exactly one. -/
def isUnique (s : AssetStorage α ρ) (c : Nat) : Bool :=
  strongCount s c == 1

/-- Value of `WeakHandle::upgrade` for a weak handle over cell `c`:
succeeds iff at least one strong reference to the cell remains. -/
def upgradeWeak (s : AssetStorage α ρ) (c : Nat) : Option Handle :=
  if 0 < strongCount s c then some ⟨c⟩ else none

/-- Value of `WeakHandle::is_dead`: negation of upgrade success. -/
def isDeadWeak (s : AssetStorage α ρ) (c : Nat) : Bool :=
  (upgradeWeak s c).isNone

/-- `AssetStorage::get`: the asset behind `handle` iff the bitset covers
its id.  A covered-but-uninitialized cell is undefined behaviour in the
source; the model returns `none` there as well.  (Named `getAsset` here
because plain `get` is shadowed by the monad-state `get`.) -/
def getAsset (s : AssetStorage α ρ) (h : Handle) : Option α :=
  if s.bitset (handleId s h) = true then (s.assets (handleId s h)).map Prod.fst
  else none

/-- `AssetStorage::get_version`. -/
def getVersion (s : AssetStorage α ρ) (h : Handle) : Option Nat :=
  if s.bitset (handleId s h) = true then (s.assets (handleId s h)).map Prod.snd
  else none

/-- `AssetStorage::contains`. -/
def contains (s : AssetStorage α ρ) (h : Handle) : Bool :=
  s.bitset (handleId s h)

/-- `AssetStorage::contains_id`. -/
def containsId (s : AssetStorage α ρ) (i : Nat) : Bool :=
  s.bitset i

/-- `AssetStorage::replace`: requires the bitset to cover the handle's
id, bumps the version, stores the new asset, returns the previous one.
The `else` branch is the source's `panic!("Trying to replace not loaded
asset")`; a covered-but-uninitialized cell would be an undefined
`get_mut` and is surfaced as an error too. -/
def replace (s : AssetStorage α ρ) (h : Handle) (a : α) :
    Except String (α × AssetStorage α ρ) :=
  if s.bitset (handleId s h) = true then
    match s.assets (handleId s h) with
    | some (a0, v) =>
        .ok (a0, { s with assets := Function.update s.assets (handleId s h) (some (a, v + 1)) })
    | none => .error "undefined read of uninitialized asset cell"
  else .error "Trying to replace not loaded asset"

/-- `AssetStorage::unload_all`: `assets.clean(&bitset)` drops every cell
the bitset covers, then the bitset is cleared.  No other field is
touched. -/
def unloadAll (s : AssetStorage α ρ) : AssetStorage α ρ :=
  { s with
    assets := fun i => if s.bitset i = true then none else s.assets i
    bitset := fun _ => false }

/-- The pruning pass at the head of `AssetStorage::hot_reload`:
`self.reloads.retain(|&(ref handle, _)| !handle.is_dead())`. -/
def hotReloadPrune (s : AssetStorage α ρ) : AssetStorage α ρ :=
  { s with reloads := s.reloads.filter (fun pr => !(isDeadWeak s pr.1)) }

/-!  The derived equality and hash of `Handle`.

`Handle<A>` derives `PartialEq`, `Eq` and `Hash` field-wise via
`derivative`.  The `id: Arc<u32>` field compares through
`impl PartialEq for Arc<u32>`, which dereferences both sides and
compares the pointed-to `u32` values (value equality, not
`Arc::ptr_eq`); `PhantomData` always compares equal.  Likewise `Hash`
for `Arc<u32>` feeds the pointed-to `u32` value to the hasher, and
`PhantomData` feeds nothing.  Both therefore depend only on the map from
cells to id values, passed here as `cid`. -/

/-- Derived `PartialEq` of `Handle`: compares the dereferenced `u32`
values of the two id cells. -/
def handleEq (cid : Nat → Nat) (h₁ h₂ : Handle) : Bool :=
  cid h₁.cell == cid h₂.cell

/-- Derived `Hash` of `Handle`: the data fed to the hasher is exactly
the dereferenced `u32` value of the id cell. -/
def handleHashInput (cid : Nat → Nat) (h : Handle) : Nat :=
  cid h.cell

/-!  The id allocator (`Allocator` in the source).

`next_id` performs `store_count.fetch_add(1, Ordering::Relaxed)`: it
returns the old `usize` value and stores the old value plus one, with
wrapping `usize` arithmetic.  `allocate_new` truncates the returned
value with `as u32`. -/

/-- One `Allocator::next_id` call on a counter holding `c`: the returned
`usize` and the new counter value. -/
def nextId (c : Nat) : Nat × Nat :=
  (c, (c + 1) % usizeMod)

/-- Truncation `as u32` applied by `allocate_new` to the fresh id. -/
def allocNewIdOf (c : Nat) : Nat :=
  c % u32Mod

/-- Counter value after `n` calls to `next_id`, starting from the
freshly constructed allocator (counter zero). -/
def counterAfter : Nat → Nat
  | 0 => 0
  | n + 1 => (counterAfter n + 1) % usizeMod

/-- The `usize` returned by the `n`-th (0-based) `next_id` call over the
allocator's lifetime. -/
def nextIdAt (n : Nat) : Nat :=
  (nextId (counterAfter n)).1

/-- The `u32` id returned by the `n`-th (0-based) `allocate_new` call,
assuming `allocate_new` is the only caller of `next_id`. -/
def allocIdAt (n : Nat) : Nat :=
  allocNewIdOf (nextIdAt n)

/-!  The processing pipeline (`process_custom_drop`).

`δ` is the raw data type `A::Data`.  The user conversion closure `f` is
a pure function `δ → Except AErr (ProcessingState α δ)`.  Worker-side
failures arrive as `Except.error` inside the queued records. -/

/-- Loading state returned by processor systems
(`ProcessingState<A>` in the source). -/
inductive ProcessingState (α δ : Type) where
  | Loading (d : δ)
  | Loaded (a : α)
deriving DecidableEq, Repr

/-- A format's output (`FormatValue<D>`): the raw data plus an optional
reload object. -/
structure FormatValue (δ ρ : Type) where
  data : δ
  reload : Option ρ
deriving DecidableEq, Repr

/-- A record of the processed queue (`Processed<A>` in the source).  The
per-record `tracker` object of `NewAsset` is modelled by the global
`Effects.tracker` log, so the constructor does not carry it. -/
inductive Processed (α δ ρ : Type) where
  | NewAsset (data : Except AErr (FormatValue δ ρ)) (handle : Handle) (name : String)
  | HotReload (data : Except AErr (FormatValue δ ρ)) (handle : Handle) (name : String)
      (oldReload : ρ)

variable {δ : Type}

/-- The conversion chain shared by both record arms:
`data.map(|FormatValue { data, reload }| (data, reload))
     .and_then(|(d, rel)| f(d).map(|a| (a, rel)))
     .with_context(|_| error::Error::Asset(name.clone()))`.
Both a worker-side error in `data` and an error from `f` come out
wrapped in the `Asset(name)` context. -/
def convert (f : δ → Except AErr (ProcessingState α δ)) (data : Except AErr (FormatValue δ ρ))
    (name : String) : Except AErr (ProcessingState α δ × Option ρ) :=
  match data with
  | .error _ => .error (.Asset name)
  | .ok fv =>
      match f fv.data with
      | .error _ => .error (.Asset name)
      | .ok st => .ok (st, fv.reload)

/-- Commit of a loaded asset for the handle over cell `c`
(the tail of the `NewAsset` `Loaded` arm, also reached by `insert` and
`clone_asset`): mark the bitset, push a retained strong clone of the
handle, write `(asset, 0)` into the dense storage. -/
def commitAsset (s : AssetStorage α ρ) (c : Nat) (a : α) : AssetStorage α ρ :=
  { s with
    bitset := Function.update s.bitset (s.cellId c) true
    handles := s.handles ++ [c]
    assets := Function.update s.assets (s.cellId c) (some (a, 0)) }

/-- One more external strong reference to cell `c` (a `clone`, or a
`WeakHandle::upgrade` that succeeded). -/
def bumpExt (s : AssetStorage α ρ) (c : Nat) : AssetStorage α ρ :=
  { s with external := Function.update s.external c (s.external c + 1) }

/-- One external strong reference to cell `c` dropped. -/
def decExt (s : AssetStorage α ρ) (c : Nat) : AssetStorage α ρ :=
  { s with external := Function.update s.external c (s.external c - 1) }

/-- Drain-phase handling of a single popped record (the body of the
`while let Ok(processed) = self.processed.pop()` loop).  Returns the
updated store and effects plus the record to requeue when the conversion
reports `Loading`.  An `Except.error` is a drain-phase panic: the
`assert!` in the `HotReload` `Loaded` arm, or an undefined access to an
uninitialized dense cell.  Cell reference accounting: a record entering
the queue holds one strong reference, counted in `external`; when the
record is consumed (not requeued) that reference is dropped at the end
of the arm, after any clone pushed into `handles`. -/
def processRecord (f : δ → Except AErr (ProcessingState α δ)) (s : AssetStorage α ρ)
    (eff : Effects α) (r : Processed α δ ρ) :
    Except String (AssetStorage α ρ × Effects α × Option (Processed α δ ρ)) :=
  match r with
  | .NewAsset data handle name =>
      match convert f data name with
      | .error e =>
          -- error!(...); tracker.fail(handle.id(), A::NAME, name, e); continue
          .ok (decExt s handle.cell,
               { eff with tracker := eff.tracker ++ [.fail (handleId s handle) name e] },
               none)
      | .ok (.Loading x, rel) =>
          -- requeue the record with the partial data repackaged
          .ok (s, eff, some (.NewAsset (.ok ⟨x, rel⟩) handle name))
      | .ok (.Loaded a, rel) =>
          -- the unique-handle warning and tracker call happen before the commit
          let ev : TrackerEvent :=
            if isUnique s handle.cell = true then
              .fail (handleId s handle) name .UnusedHandle
            else .success
          let s₁ := commitAsset s handle.cell a
          let s₂ :=
            match rel with
            | some robj => { s₁ with reloads := s₁.reloads ++ [(handle.cell, robj)] }
            | none => s₁
          .ok (decExt s₂ handle.cell, { eff with tracker := eff.tracker ++ [ev] }, none)
  | .HotReload data handle name oldReload =>
      match convert f data name with
      | .error _ =>
          -- error!(...); fall back: re-register the prior reload object
          .ok (decExt { s with reloads := s.reloads ++ [(handle.cell, oldReload)] } handle.cell,
               eff, none)
      | .ok (.Loading x, rel) =>
          .ok (s, eff, some (.HotReload (.ok ⟨x, rel⟩) handle name oldReload))
      | .ok (.Loaded a, rel) =>
          if s.bitset (handleId s handle) = true then
            match s.assets (handleId s handle) with
            | some (a0, v) =>
                let s₁ :=
                  { s with
                    assets := Function.update s.assets (handleId s handle) (some (a, v + 1)) }
                let s₂ :=
                  match rel with
                  | some robj => { s₁ with reloads := s₁.reloads ++ [(handle.cell, robj)] }
                  | none => s₁
                .ok (decExt s₂ handle.cell, { eff with dropped := eff.dropped ++ [a0] }, none)
            | none => .error "undefined read of uninitialized asset cell"
          else
            .error "Expected handle to be valid, but the asset storage says otherwise"

/-- The full drain phase: pop records in FIFO order until the queue
snapshot is exhausted, collecting requeued records
(`requeue: Vec<Processed>` in the source, pushed back after the loop). -/
def drainAll (f : δ → Except AErr (ProcessingState α δ)) (s : AssetStorage α ρ)
    (eff : Effects α) (records : List (Processed α δ ρ)) (rq : List (Processed α δ ρ)) :
    Except String (AssetStorage α ρ × Effects α × List (Processed α δ ρ)) :=
  match records with
  | [] => .ok (s, eff, rq)
  | r :: rs =>
      match processRecord f s eff r with
      | .error e => .error e
      | .ok (s', eff', none) => drainAll f s' eff' rs rq
      | .ok (s', eff', some r') => drainAll f s' eff' rs (rq ++ [r'])

/-- Position of the first element satisfying `p`
(`Iterator::position`). -/
def findIdxP {β : Type} (p : β → Bool) : List β → Option Nat
  | [] => none
  | b :: l => if p b = true then some 0 else (findIdxP p l).map Nat.succ

/-- `Vec::swap_remove(i)`: overwrite position `i` with the last element,
then pop the last position.  `d` is the out-of-range default of the
reads (never exercised on valid indices). -/
def swapRemove {β : Type} (l : List β) (i : Nat) (d : β) : List β :=
  (l.set i (l.getD (l.length - 1) d)).dropLast

/-- The sweep phase (phase P2 of `process_custom_drop`): repeatedly
locate the first retained handle at a position at or after `skip` whose
strong count is one (`position(Handle::is_unique)` over
`iter().skip(skip)`), swap-remove it, remove and drop its asset, clear
its bitset bit, and push a brand-new cell carrying the same id onto
`unused_handles` (`Handle { id: Arc::new(id) }` — a fresh cell, so
surviving weak handles stay dead).  `fuel` is a structural bound on the
number of iterations; each iteration shortens `handles` by one, so
`s.handles.length` suffices.  An `Except.error` is the undefined
`assets.remove` of an uninitialized cell. -/
def sweepLoop (fuel : Nat) (s : AssetStorage α ρ) (skip : Nat) (acc : List α) :
    Except String (AssetStorage α ρ × List α) :=
  match fuel with
  | 0 => .ok (s, acc)
  | fuel + 1 =>
      match findIdxP (fun c => isUnique s c) (s.handles.drop skip) with
      | none => .ok (s, acc)
      | some rel =>
          let i := skip + rel
          let c := s.handles.getD i 0
          let id := s.cellId c
          match s.assets id with
          | none => .error "undefined remove of uninitialized asset cell"
          | some (a, _) =>
              sweepLoop fuel
                { s with
                  handles := swapRemove s.handles i 0
                  bitset := Function.update s.bitset id false
                  assets := Function.update s.assets id none
                  unusedHandles := s.unusedHandles ++ [s.nextCell]
                  cellId := Function.update s.cellId s.nextCell id
                  nextCell := s.nextCell + 1 }
                i (acc ++ [a])

/-- The whole sweep phase, started with `skip = 0` and enough fuel. -/
def sweep (s : AssetStorage α ρ) : Except String (AssetStorage α ρ × List α) :=
  sweepLoop s.handles.length s 0 []

/-- The dispatch loop of `hot_reload`: while some remaining entry's
reload object reports `needs_reload()`, swap-remove it and, if its weak
handle still upgrades, spawn a reload job for it.  The spawned jobs run
off-store (they push `HotReload` records into the queue later); the
model returns them as a list. -/
def scanLoop [Inhabited ρ] (needs : ρ → Bool) (fuel : Nat) (s : AssetStorage α ρ)
    (spawned : List (Nat × ρ)) : AssetStorage α ρ × List (Nat × ρ) :=
  match fuel with
  | 0 => (s, spawned)
  | fuel + 1 =>
      match findIdxP (fun pr => needs pr.2) s.reloads with
      | none => (s, spawned)
      | some p =>
          let pr := s.reloads.getD p (0, default)
          let s' := { s with reloads := swapRemove s.reloads p (0, default) }
          let spawned' :=
            if 0 < strongCount s' pr.1 then spawned ++ [pr] else spawned
          scanLoop needs fuel s' spawned'

/-- `AssetStorage::hot_reload`: prune dead entries, then dispatch. -/
def hotReload [Inhabited ρ] (needs : ρ → Bool) (s : AssetStorage α ρ) :
    AssetStorage α ρ × List (Nat × ρ) :=
  let s₀ := hotReloadPrune s
  scanLoop needs s₀.reloads.length s₀ []

/-- One full `process_custom_drop` tick over a queue snapshot: drain
(P1), push the requeued records back, sweep (P2), and, when the
hot-reload strategy gates on for this frame (`strat`), the reload scan
(P3).  Returns the final store, the accumulated effects, and the new
queue contents (the requeued records). -/
def processTick [Inhabited ρ] (f : δ → Except AErr (ProcessingState α δ)) (strat : Bool)
    (needs : ρ → Bool) (s : AssetStorage α ρ) (records : List (Processed α δ ρ)) :
    Except String (AssetStorage α ρ × Effects α × List (Processed α δ ρ)) :=
  match drainAll f s Effects.empty records [] with
  | .error e => .error e
  | .ok (s₁, eff₁, rq) =>
      match sweep s₁ with
      | .error e => .error e
      | .ok (s₂, swept) =>
          let s₃ := if strat = true then (hotReload needs s₂).1 else s₂
          .ok (s₃, { eff₁ with dropped := eff₁.dropped ++ swept }, rq)

/-!  Well-formedness of a store between ticks, and the discipline the
loader guarantees for queued records (the source notes that the loader
ensures a handle is used together with a `Data` only once). -/

/-- The handle carried by a queued record. -/
def recHandle : Processed α δ ρ → Handle
  | .NewAsset _ h _ => h
  | .HotReload _ h _ _ => h

/-- Whether a queued record is a `HotReload` record. -/
def recIsHot : Processed α δ ρ → Bool
  | .NewAsset _ _ _ => false
  | .HotReload _ _ _ _ => true

/-- Well-formedness of a store: the bitset covers only initialized dense
cells, every retained handle's id is covered, retained handles carry
pairwise distinct ids, and every cell index the store holds has been
allocated. -/
def WFStore (s : AssetStorage α ρ) : Prop :=
  (∀ i, s.bitset i = true → (s.assets i).isSome = true) ∧
  (∀ c ∈ s.handles, s.bitset (s.cellId c) = true) ∧
  (s.handles.map s.cellId).Nodup ∧
  (∀ c ∈ s.handles, c < s.nextCell) ∧
  (∀ c ∈ s.unusedHandles, c < s.nextCell)

/-- Loader discipline for a queue snapshot: every `HotReload` record
targets an occupied id, every `NewAsset` record targets an unoccupied id,
no two `NewAsset` records share an id, and every record's handle cell has
been allocated. -/
def RecsOK (s : AssetStorage α ρ) (records : List (Processed α δ ρ)) : Prop :=
  (∀ r ∈ records, recIsHot r = true → s.bitset (handleId s (recHandle r)) = true) ∧
  (∀ r ∈ records, recIsHot r = false → s.bitset (handleId s (recHandle r)) = false) ∧
  List.Pairwise (fun r₁ r₂ => recIsHot r₁ = false → recIsHot r₂ = false →
    handleId s (recHandle r₁) ≠ handleId s (recHandle r₂)) records ∧
  (∀ r ∈ records, (recHandle r).cell < s.nextCell)

/-!  Concrete stores used as witness inputs. -/

/-- An otherwise empty store in which cell 0 has been allocated (carrying
id 0) and one strong reference to it is held by a queued record. -/
def wRec : AssetStorage Nat Unit :=
  { initStorage Nat Unit with
    cellId := fun c => c
    nextCell := 1
    external := fun c => if c == 0 then 1 else 0 }


/-- A store holding one committed asset: cell 0 carries id 0, the bitset
covers id 0, and the dense storage holds asset `42` at version `3`.  The
store retains the strong handle for it and an external clone exists. -/
def wOcc : AssetStorage Nat Unit :=
  { initStorage Nat Unit with
    bitset := fun i => i == 0
    assets := fun i => if i == 0 then some (42, 3) else none
    handles := [0]
    cellId := fun c => c
    nextCell := 1
    external := fun c => if c == 0 then 1 else 0 }

/-- A store exercising every field `unload_all` must leave alone:
a retained handle over cell 5, a reload entry for it, a queued unused
handle, and a non-zero allocator counter. -/
def wFrame : AssetStorage Nat Unit :=
  { initStorage Nat Unit with
    bitset := fun i => i == 5
    assets := fun i => if i == 5 then some (1, 0) else none
    handles := [5]
    counter := 3
    reloads := [(5, ())]
    unusedHandles := [7]
    cellId := fun c => c
    nextCell := 9 }

/-!  A small-step transition system over the store and its cell heap,
used to settle the temporal claim about freed ids (C1).  Each event is
one store-mutating operation of the program, or one iteration of the
sweep loop; user code may clone, drop and upgrade handles between calls.
The executable `applyX` functions give each event's successor state, so
that concrete traces compute. -/

/-- Effect of `allocate` when `unused_handles` is empty and
`allocate_new` runs: a fresh cell is created holding
`handle_alloc.next_id() as u32`, with strong count 1, handed to the
caller. -/
def applyAllocNew (s : AssetStorage α ρ) : AssetStorage α ρ :=
  { s with
    cellId := Function.update s.cellId s.nextCell (s.counter % u32Mod)
    external := Function.update s.external s.nextCell 1
    nextCell := s.nextCell + 1
    counter := (s.counter + 1) % usizeMod }

/-- Effect of `allocate` when `unused_handles` pops a retired handle:
the popped cell's strong reference transfers from the queue to the
caller. -/
def applyAllocPop (s : AssetStorage α ρ) (c : Nat) (rest : List Nat) : AssetStorage α ρ :=
  { s with
    unusedHandles := rest
    external := Function.update s.external c (s.external c + 1) }

/-- Effect of one iteration of the sweep loop on the handle over cell
`c` (strong count one): the store's copy is removed from `handles`, the
asset dropped, the bitset bit cleared, and a brand-new cell carrying the
same id pushed onto `unused_handles`.  The removal is by occurrence
(`swap_remove` in the source — same multiset). -/
def applySweepOne (s : AssetStorage α ρ) (c : Nat) : AssetStorage α ρ :=
  { s with
    handles := s.handles.erase c
    bitset := Function.update s.bitset (s.cellId c) false
    assets := Function.update s.assets (s.cellId c) none
    unusedHandles := s.unusedHandles ++ [s.nextCell]
    cellId := Function.update s.cellId s.nextCell (s.cellId c)
    nextCell := s.nextCell + 1 }

/-- Effect of an in-place asset mutation behind an occupied id
(`replace`, or the hot-reload commit): the slot's asset is swapped and
its version bumped; no cell accounting changes. -/
def applyMutate (s : AssetStorage α ρ) (i : Nat) (a : α) : AssetStorage α ρ :=
  { s with
    assets := fun j => if j = i then (s.assets i).map (fun p => (a, p.2 + 1)) else s.assets j }

/-- One store-mutating event.  `commitNew` is the commit tail of the
`NewAsset` `Loaded` drain arm for a handle held by a queued record (the
record's own reference cancels against its end-of-arm drop, so the
event's net reference effect is the `handles` push alone);
`upgradeOrClone` covers both `Handle::clone` and a successful
`WeakHandle::upgrade`; `insert` and `clone_asset` are `allocNew`/
`allocPop` followed by `commitNew`. -/
inductive StoreStep : AssetStorage α ρ → AssetStorage α ρ → Prop where
  | allocNew (s : AssetStorage α ρ) :
      s.unusedHandles = [] → StoreStep s (applyAllocNew s)
  | allocPop (s : AssetStorage α ρ) (c : Nat) (rest : List Nat) :
      s.unusedHandles = c :: rest → StoreStep s (applyAllocPop s c rest)
  | upgradeOrClone (s : AssetStorage α ρ) (c : Nat) :
      0 < strongCount s c → StoreStep s (bumpExt s c)
  | dropHandle (s : AssetStorage α ρ) (c : Nat) :
      0 < s.external c → StoreStep s (decExt s c)
  | commitNew (s : AssetStorage α ρ) (c : Nat) (a : α) :
      0 < s.external c → StoreStep s (commitAsset s c a)
  | mutate (s : AssetStorage α ρ) (i : Nat) (a : α) :
      s.bitset i = true → StoreStep s (applyMutate s i a)
  | sweepOne (s : AssetStorage α ρ) (c : Nat) :
      c ∈ s.handles → strongCount s c = 1 → StoreStep s (applySweepOne s c)
  | unload (s : AssetStorage α ρ) : StoreStep s (unloadAll s)
  | pushReload (s : AssetStorage α ρ) (c : Nat) (r : ρ) :
      StoreStep s { s with reloads := s.reloads ++ [(c, r)] }

/-- States reachable from the fresh store in `n` events. -/
inductive StoreReach : Nat → AssetStorage α ρ → Prop where
  | init : StoreReach 0 (initStorage α ρ)
  | step {n : Nat} {s s' : AssetStorage α ρ} :
      StoreReach n s → StoreStep s s' → StoreReach (n + 1) s'

/-- The cell-heap invariant behind claim C1: every allocated cell's id
is below the allocator counter, at most one live cell exists per id
number, and live cells have been allocated. -/
def CellInv (s : AssetStorage α ρ) : Prop :=
  (∀ c, c < s.nextCell → s.cellId c < s.counter) ∧
  (∀ c c', c < s.nextCell → c' < s.nextCell → c ≠ c' → s.cellId c = s.cellId c' →
    strongCount s c = 0 ∨ strongCount s c' = 0) ∧
  (∀ c, 0 < strongCount s c → c < s.nextCell)

/-!  Concrete trace states for the C1 theorems.

Witness trace (4 events): allocate a handle, commit an asset for it,
drop the user's reference, sweep — leaving cell 0 dead and the recycled
cell 1 (same id 0) live in `unused_handles`. -/

/-- Witness trace, state after `allocate`. -/
def cexW1 : AssetStorage Nat Unit := applyAllocNew (initStorage Nat Unit)

/-- Witness trace, state after the drain commits asset 42 for cell 0. -/
def cexW2 : AssetStorage Nat Unit := commitAsset cexW1 0 42

/-- Witness trace, state after the user drops the handle. -/
def cexW3 : AssetStorage Nat Unit := decExt cexW2 0

/-- Witness trace, state after the sweep retires id 0. -/
def cexW4 : AssetStorage Nat Unit := applySweepOne cexW3 0

/-!  Counterexample trace for the claim as stated.  It needs the `u32`
wrap: after `2 ^ 32` ids have been minted the counter's `as u32` cast
returns 0 again, so a freshly allocated handle collides with the id of
the store's first asset.  `loopState k` is the state after allocating
and committing one asset for cell 0 (the user keeps that handle), then
allocating and immediately dropping `k` further handles. -/

/-- The state after 2 + 2k events: cells `1..k` minted and dropped,
cell 0 live with asset 42 committed at id 0. -/
def loopState (k : Nat) : AssetStorage Nat Unit where
  assets := fun i => if i == 0 then some (42, 0) else none
  bitset := fun i => i == 0
  handles := [0]
  counter := k + 1
  reloads := []
  unusedHandles := []
  cellId := fun c => if c ≤ k then c else 0
  nextCell := k + 1
  external := fun c => if c == 0 then 1 else 0

/-- The wrap point: `2 ^ 32 - 1` handles minted after the first one, so
the counter holds `2 ^ 32`. -/
def cexMid : AssetStorage Nat Unit := loopState (u32Mod - 1)

/-- The old handle's cell: minted at the wrap point, its `as u32` id is
`2 ^ 32 % 2 ^ 32 = 0`, colliding with the live asset's id. -/
def cexN : Nat := u32Mod

/-- State after allocating the colliding handle (cell `cexN`, id 0). -/
def cexS3 : AssetStorage Nat Unit := applyAllocNew cexMid

/-- State after the drain commits asset 43 for the colliding handle. -/
def cexS4 : AssetStorage Nat Unit := commitAsset cexS3 cexN 43

/-- State after the user drops the original cell-0 handle. -/
def cexS5 : AssetStorage Nat Unit := decExt cexS4 0

/-- State after the sweep retires id 0 (evicting the asset and pushing
the recycled cell `cexM` with id 0 onto `unused_handles`) — while the
previously handed-out handle over cell `cexN`, carrying id 0, is still
live. -/
def cexS6 : AssetStorage Nat Unit := applySweepOne cexS5 0

/-- The recycled cell pushed by the sweep. -/
def cexM : Nat := u32Mod + 1

/-- State after `allocate` pops the recycled cell (`insert` begins). -/
def cexS7 : AssetStorage Nat Unit := applyAllocPop cexS6 cexM []

/-- State after `insert` commits asset 44 at the recycled id 0. -/
def cexS8 : AssetStorage Nat Unit := commitAsset cexS7 cexM 44

/-!
From here on: the theorems.  Claim theorems are marked with the claim id
from the frozen claim list.
-/

theorem counterAfter_eq (n : Nat) : counterAfter n = n % usizeMod := by
  induction n with
  | zero => rfl
  | succ n ih =>
      show (counterAfter n + 1) % usizeMod = (n + 1) % usizeMod
      rw [ih, Nat.add_mod n 1 usizeMod]
      have h1 : 1 % usizeMod = 1 := by decide
      rw [h1]

theorem nextIdAt_eq (n : Nat) : nextIdAt n = n % usizeMod := by
  unfold nextIdAt nextId
  exact counterAfter_eq n

theorem allocIdAt_eq (n : Nat) : allocIdAt n = n % u32Mod := by
  unfold allocIdAt allocNewIdOf
  rw [nextIdAt_eq]
  exact Nat.mod_mod_of_dvd n (by decide)

/-- Claim C2, counterexample.  The claim states that two handles compare
equal iff they share the same id cell, and that two handles carrying the
same 32-bit id number in distinct cells are unequal.  The derived
equality compares the dereferenced `u32` values, so two handles over the
distinct cells 0 and 1, both holding id 7, compare equal. -/
theorem c2_counterexample :
    handleEq (fun _ => 7) ⟨0⟩ ⟨1⟩ = true ∧ (Handle.mk 0).cell ≠ (Handle.mk 1).cell :=
  ⟨rfl, by decide⟩

/-- Claim C2, amended.  Handle equality (and the data fed to the hasher)
is by numerical equality of the underlying `u32` id values: two handles
compare equal iff their dereferenced ids are equal — sharing a cell is
sufficient but not necessary, and an old handle and a recycled handle
carrying the same id number compare equal despite distinct cells. -/
theorem c2_handle_eq_by_id_value (cid : Nat → Nat) (h₁ h₂ : Handle) :
    (handleEq cid h₁ h₂ = true ↔ cid h₁.cell = cid h₂.cell) ∧
    (handleHashInput cid h₁ = handleHashInput cid h₂ ↔ cid h₁.cell = cid h₂.cell) := by
  constructor
  · simp [handleEq]
  · exact Iff.rfl

/-- Claim C5.  When the drain phase hits a conversion error for a
`HotReload` record, the store's state for that handle is unchanged (same
asset, same version, bitset unchanged), the new data is discarded (no
commit, no requeue), and the prior reload object is re-registered in
`reloads` paired with the handle's cell (its weak form). -/
theorem c5_hot_reload_error_preserves (f : δ → Except AErr (ProcessingState α δ))
    (s : AssetStorage α ρ) (eff : Effects α) (data : Except AErr (FormatValue δ ρ))
    (h : Handle) (name : String) (old : ρ) (e : AErr)
    (hc : convert f data name = .error e) :
    ∃ s', processRecord f s eff (.HotReload data h name old) = .ok (s', eff, none) ∧
      s'.assets = s.assets ∧ s'.bitset = s.bitset ∧ s'.handles = s.handles ∧
      s'.unusedHandles = s.unusedHandles ∧
      s'.reloads = s.reloads ++ [(h.cell, old)] ∧
      getAsset s' h = getAsset s h ∧ getVersion s' h = getVersion s h ∧
      contains s' h = contains s h := by
  refine ⟨decExt { s with reloads := s.reloads ++ [(h.cell, old)] } h.cell, ?_,
    rfl, rfl, rfl, rfl, rfl, rfl, rfl, rfl⟩
  simp [processRecord, hc]

/-- Claim C5, witness at a concrete record whose worker-side data is an
error. -/
theorem c5_witness :
    (convert (fun d : Nat => Except.ok (ProcessingState.Loaded d))
        (Except.error (AErr.Other "io") : Except AErr (FormatValue Nat Unit)) "tex" =
      Except.error (AErr.Asset "tex")) ∧
    ∃ s', processRecord (fun d : Nat => Except.ok (ProcessingState.Loaded d)) wOcc
        Effects.empty (.HotReload (.error (.Other "io")) ⟨0⟩ "tex" ()) =
        .ok (s', Effects.empty, none) ∧
      s'.assets = wOcc.assets ∧ s'.bitset = wOcc.bitset ∧ s'.handles = wOcc.handles ∧
      s'.unusedHandles = wOcc.unusedHandles ∧
      s'.reloads = wOcc.reloads ++ [((0 : Nat), ())] ∧
      getAsset s' ⟨0⟩ = getAsset wOcc ⟨0⟩ ∧ getVersion s' ⟨0⟩ = getVersion wOcc ⟨0⟩ ∧
      contains s' ⟨0⟩ = contains wOcc ⟨0⟩ :=
  ⟨rfl, c5_hot_reload_error_preserves _ wOcc Effects.empty _ ⟨0⟩ "tex" () (.Asset "tex") rfl⟩

/-- Claim C6.  When the drain phase converts a `HotReload` record to
`Loaded` and the handle's id is occupied, the slot's version is bumped
by exactly one (`get_version` afterwards is `some (v + 1)`), the new
asset is swapped into place so `get` returns it, and the evicted old
asset is passed to `drop_fn`. -/
theorem c6_hot_reload_commit (f : δ → Except AErr (ProcessingState α δ))
    (s : AssetStorage α ρ) (eff : Effects α) (data : Except AErr (FormatValue δ ρ))
    (h : Handle) (name : String) (old : ρ) (a : α) (rel : Option ρ) (a0 : α) (v : Nat)
    (hc : convert f data name = .ok (.Loaded a, rel))
    (hb : s.bitset (handleId s h) = true)
    (ha : s.assets (handleId s h) = some (a0, v)) :
    ∃ s', processRecord f s eff (.HotReload data h name old) =
        .ok (s', { eff with dropped := eff.dropped ++ [a0] }, none) ∧
      getVersion s h = some v ∧ getVersion s' h = some (v + 1) ∧ getAsset s' h = some a := by
  have hbase : ∀ s' : AssetStorage α ρ, s'.bitset = s.bitset → s'.cellId = s.cellId →
      s'.assets = Function.update s.assets (handleId s h) (some (a, v + 1)) →
      getVersion s' h = some (v + 1) ∧ getAsset s' h = some a := by
    intro s' hbs hcs has
    have hid : handleId s' h = handleId s h := by
      simp [handleId, hcs]
    constructor
    · simp [getVersion, hid, hbs, hb, has, Function.update_same]
    · simp [getAsset, hid, hbs, hb, has, Function.update_same]
  cases rel with
  | none =>
      refine ⟨decExt
        { s with assets := Function.update s.assets (handleId s h) (some (a, v + 1)) }
        h.cell, ?_, ?_, ?_⟩
      · simp [processRecord, hc, hb, ha]
      · simp [getVersion, hb, ha]
      · exact hbase _ rfl rfl rfl
  | some robj =>
      refine ⟨decExt
        { s with assets := Function.update s.assets (handleId s h) (some (a, v + 1)),
                 reloads := s.reloads ++ [(h.cell, robj)] }
        h.cell, ?_, ?_, ?_⟩
      · simp [processRecord, hc, hb, ha]
      · simp [getVersion, hb, ha]
      · exact hbase _ rfl rfl rfl

/-- Claim C6, witness at a concrete hot-reload record over the occupied
store `wOcc` (asset 42 at version 3, reloaded to 7). -/
theorem c6_witness :
    (convert (fun d : Nat => Except.ok (ProcessingState.Loaded d))
        (Except.ok ⟨7, none⟩ : Except AErr (FormatValue Nat Unit)) "tex" =
      Except.ok (ProcessingState.Loaded 7, none)) ∧
    wOcc.bitset (handleId wOcc ⟨0⟩) = true ∧
    wOcc.assets (handleId wOcc ⟨0⟩) = some (42, 3) ∧
    ∃ s', processRecord (fun d : Nat => Except.ok (ProcessingState.Loaded d)) wOcc
        Effects.empty (.HotReload (.ok ⟨7, none⟩) ⟨0⟩ "tex" ()) =
        .ok (s', (⟨[], [42]⟩ : Effects Nat), none) ∧
      getVersion wOcc ⟨0⟩ = some 3 ∧ getVersion s' ⟨0⟩ = some 4 ∧ getAsset s' ⟨0⟩ = some 7 :=
  ⟨rfl, rfl, rfl,
    c6_hot_reload_commit _ wOcc Effects.empty _ ⟨0⟩ "tex" () 7 none 42 3 rfl rfl rfl⟩

/-- Claim C7.  For every handle whose id the bitset covers, `replace`
bumps the slot's version (a following `get_version` is strictly greater
than before), stores the new asset and returns the previous one; for
every handle whose id is uncovered, `replace` panics. -/
theorem c7_replace_spec (s : AssetStorage α ρ) (h : Handle) (a : α) :
    (∀ a0 v, s.bitset (handleId s h) = true → s.assets (handleId s h) = some (a0, v) →
      ∃ s', replace s h a = .ok (a0, s') ∧ getVersion s h = some v ∧
        getVersion s' h = some (v + 1) ∧ v < v + 1 ∧ getAsset s' h = some a) ∧
    (s.bitset (handleId s h) = false →
      replace s h a = .error "Trying to replace not loaded asset") := by
  constructor
  · intro a0 v hb ha
    refine ⟨{ s with assets := Function.update s.assets (handleId s h) (some (a, v + 1)) },
      ?_, ?_, ?_, Nat.lt_succ_self v, ?_⟩
    · simp [replace, hb, ha]
    · simp [getVersion, hb, ha]
    · have hb' : s.bitset (s.cellId h.cell) = true := hb
      simp [getVersion, handleId, hb', Function.update_same]
    · have hb' : s.bitset (s.cellId h.cell) = true := hb
      simp [getAsset, handleId, hb', Function.update_same]
  · intro hb
    simp [replace, hb]

/-- Claim C7, witness: both branches at concrete stores — the occupied
store `wOcc` (asset 42, version 3, replaced by 99) and the empty
store. -/
theorem c7_witness :
    (wOcc.bitset (handleId wOcc ⟨0⟩) = true ∧
      wOcc.assets (handleId wOcc ⟨0⟩) = some (42, 3) ∧
      ∃ s', replace wOcc ⟨0⟩ 99 = .ok (42, s') ∧ getVersion wOcc ⟨0⟩ = some 3 ∧
        getVersion s' ⟨0⟩ = some 4 ∧ 3 < 4 ∧ getAsset s' ⟨0⟩ = some 99) ∧
    ((initStorage Nat Unit).bitset (handleId (initStorage Nat Unit) ⟨0⟩) = false ∧
      replace (initStorage Nat Unit) ⟨0⟩ 99 =
        .error "Trying to replace not loaded asset") :=
  ⟨⟨rfl, rfl, (c7_replace_spec wOcc ⟨0⟩ 99).1 42 3 rfl rfl⟩,
   ⟨rfl, (c7_replace_spec (initStorage Nat Unit) ⟨0⟩ 99).2 rfl⟩⟩

/-- Claim C8, counterexample.  The claim states that successive
`allocate_new` calls return strictly increasing 32-bit ids across the
store's lifetime.  The counter is truncated `as u32`, so the id of the
2^32-th call wraps to 0, below the id 1 of the second call. -/
theorem c8_counterexample :
    allocIdAt 1 = 1 ∧ allocIdAt u32Mod = 0 ∧ 1 < u32Mod ∧
    ¬ allocIdAt 1 < allocIdAt u32Mod := by
  have h1 : allocIdAt 1 = 1 := by rw [allocIdAt_eq]; decide
  have h2 : allocIdAt u32Mod = 0 := by rw [allocIdAt_eq]; exact Nat.mod_self u32Mod
  refine ⟨h1, h2, by decide, ?_⟩
  rw [h1, h2]
  omega

/-- Claim C8, amended.  Id allocation is monotonic as long as it does
not wrap: while fewer than 2^32 ids have been handed out, successive
`allocate_new` calls return strictly increasing `u32` ids, and while
fewer than 2^64 calls have been made, `next_id` returns values strictly
greater than all previously returned values. -/
theorem c8_id_monotonic_bounded (m n : Nat) (hmn : m < n) :
    (n < u32Mod → allocIdAt m < allocIdAt n) ∧
    (n < usizeMod → nextIdAt m < nextIdAt n) := by
  constructor
  · intro hn
    rw [allocIdAt_eq, allocIdAt_eq, Nat.mod_eq_of_lt (lt_trans hmn hn), Nat.mod_eq_of_lt hn]
    exact hmn
  · intro hn
    rw [nextIdAt_eq, nextIdAt_eq, Nat.mod_eq_of_lt (lt_trans hmn hn), Nat.mod_eq_of_lt hn]
    exact hmn

/-- Claim C8, witness at the first two allocations. -/
theorem c8_witness :
    (0 < 1 ∧ 1 < u32Mod ∧ 1 < usizeMod) ∧
    allocIdAt 0 < allocIdAt 1 ∧ nextIdAt 0 < nextIdAt 1 :=
  ⟨⟨by decide, by decide, by decide⟩,
   (c8_id_monotonic_bounded 0 1 (by decide)).1 (by decide),
   (c8_id_monotonic_bounded 0 1 (by decide)).2 (by decide)⟩

/-- Claim C9.  After `unload_all`, every previously valid handle is
inert: `get` returns `none` and `contains` returns `false`.  The clean
pass drops every covered cell and the bitset is cleared, so this in fact
holds for every handle. -/
theorem c9_unload_all_inert (s : AssetStorage α ρ) (h : Handle)
    (_hprev : contains s h = true) :
    getAsset (unloadAll s) h = none ∧ contains (unloadAll s) h = false := by
  constructor
  · simp [getAsset, unloadAll, handleId]
  · simp [contains, unloadAll]

/-- Claim C9, witness at the occupied store `wOcc`. -/
theorem c9_witness :
    contains wOcc ⟨0⟩ = true ∧
    getAsset (unloadAll wOcc) ⟨0⟩ = none ∧ contains (unloadAll wOcc) ⟨0⟩ = false :=
  ⟨rfl, c9_unload_all_inert wOcc ⟨0⟩ rfl⟩

/-- Claim C10.  `unload_all` mutates only the dense asset storage and
the bitset: `handles`, `reloads`, `unused_handles` and the allocator
counter (as well as the cell heap) are untouched.  Consequently the
store still retains one strong handle per formerly occupied id, so a
weak handle over a retained cell still upgrades and is not dead, and its
`reloads` entries survive the pruning pass of the next hot-reload
scan. -/
theorem c10_unload_all_frame (s : AssetStorage α ρ) (c : Nat) (r : ρ) :
    (unloadAll s).handles = s.handles ∧ (unloadAll s).reloads = s.reloads ∧
    (unloadAll s).unusedHandles = s.unusedHandles ∧
    (unloadAll s).counter = s.counter ∧ (unloadAll s).cellId = s.cellId ∧
    (unloadAll s).nextCell = s.nextCell ∧ (unloadAll s).external = s.external ∧
    (c ∈ s.handles →
      upgradeWeak (unloadAll s) c = some ⟨c⟩ ∧ isDeadWeak (unloadAll s) c = false) ∧
    ((c, r) ∈ s.reloads → c ∈ s.handles →
      (c, r) ∈ (hotReloadPrune (unloadAll s)).reloads) := by
  have hstrong : ∀ hc : c ∈ s.handles, 0 < strongCount (unloadAll s) c := by
    intro hc
    have hcount : 0 < s.handles.count c := List.count_pos_iff.mpr hc
    unfold strongCount unloadAll
    simp only []
    omega
  have hup : c ∈ s.handles → upgradeWeak (unloadAll s) c = some ⟨c⟩ := by
    intro hc
    simp [upgradeWeak, hstrong hc]
  refine ⟨rfl, rfl, rfl, rfl, rfl, rfl, rfl, ?_, ?_⟩
  · intro hc
    exact ⟨hup hc, by simp [isDeadWeak, hup hc]⟩
  · intro hr hc
    unfold hotReloadPrune
    simp only [List.mem_filter]
    exact ⟨hr, by simp [isDeadWeak, hup hc]⟩

/-- Claim C10, witness at the store `wFrame` (retained handle over cell
5 with a reload entry, queued unused handle, counter 3). -/
theorem c10_witness :
    ((5 : Nat) ∈ wFrame.handles ∧ ((5 : Nat), ()) ∈ wFrame.reloads) ∧
    (unloadAll wFrame).handles = wFrame.handles ∧
    (unloadAll wFrame).reloads = wFrame.reloads ∧
    (unloadAll wFrame).unusedHandles = wFrame.unusedHandles ∧
    (unloadAll wFrame).counter = wFrame.counter ∧
    upgradeWeak (unloadAll wFrame) 5 = some ⟨5⟩ ∧
    isDeadWeak (unloadAll wFrame) 5 = false ∧
    ((5 : Nat), ()) ∈ (hotReloadPrune (unloadAll wFrame)).reloads := by
  have h := c10_unload_all_frame wFrame 5 ()
  have hmem : (5 : Nat) ∈ wFrame.handles := by decide
  have hrel : ((5 : Nat), ()) ∈ wFrame.reloads := by
    show ((5 : Nat), ()) ∈ [((5 : Nat), ())]
    exact List.mem_singleton.mpr rfl
  obtain ⟨h1, h2, h3, h4, _, _, _, h8, h9⟩ := h
  exact ⟨⟨hmem, hrel⟩, h1, h2, h3, h4, (h8 hmem).1, (h8 hmem).2, h9 hrel hmem⟩

/-!  List helper lemmas for the sweep phase: `getD` over `drop`,
`findIdxP` (the `Iterator::position` model), and `swapRemove`
(the `Vec::swap_remove` model). -/

theorem getD_drop_add {β : Type} (l : List β) :
    ∀ (n i : Nat) (d : β), (l.drop n).getD i d = l.getD (n + i) d := by
  induction l with
  | nil => intro n i d; simp
  | cons a t ih =>
      intro n i d
      cases n with
      | zero => simp
      | succ n =>
          have h1 : (a :: t).drop (n + 1) = t.drop n := rfl
          have h2 : n + 1 + i = (n + i) + 1 := by omega
          rw [h1, ih n i d, h2, List.getD_cons_succ]

theorem findIdxP_none_all {β : Type} {p : β → Bool} :
    ∀ {l : List β}, findIdxP p l = none → ∀ b ∈ l, p b = false := by
  intro l
  induction l with
  | nil => intro _ b hb; cases hb
  | cons a t ih =>
      intro hf b hb
      rw [findIdxP] at hf
      cases hpa : p a with
      | true => rw [hpa] at hf; simp at hf
      | false =>
          rw [hpa] at hf
          simp only [Bool.false_eq_true, if_false, Option.map_eq_none'] at hf
          rcases List.mem_cons.mp hb with h | h
          · subst h; exact hpa
          · exact ih hf b h

theorem findIdxP_some_spec {β : Type} {p : β → Bool} (d : β) :
    ∀ (l : List β) (i : Nat), findIdxP p l = some i →
      i < l.length ∧ p (l.getD i d) = true ∧ ∀ j, j < i → p (l.getD j d) = false := by
  intro l
  induction l with
  | nil => intro i hf; cases hf
  | cons a t ih =>
      intro i hf
      rw [findIdxP] at hf
      cases hpa : p a with
      | true =>
          rw [hpa] at hf
          simp only [if_true] at hf
          cases hf
          refine ⟨by simp, by simpa using hpa, ?_⟩
          intro j hj; omega
      | false =>
          rw [hpa] at hf
          simp only [Bool.false_eq_true, if_false, Option.map_eq_some'] at hf
          obtain ⟨i', hft, hi⟩ := hf
          obtain ⟨hlt, hp, hpre⟩ := ih i' hft
          subst hi
          refine ⟨by simpa using Nat.succ_lt_succ hlt, by simpa using hp, ?_⟩
          intro j hj
          cases j with
          | zero => simpa using hpa
          | succ j =>
              rw [List.getD_cons_succ]
              exact hpre j (Nat.lt_of_succ_lt_succ hj)

theorem dropLast_cons_ne {β : Type} (a : β) (t : List β) (ht : t ≠ []) :
    (a :: t).dropLast = a :: t.dropLast := by
  cases t with
  | nil => cases ht rfl
  | cons b t' => rfl

theorem dropLast_append_getD {β : Type} :
    ∀ (l : List β) (d : β), l ≠ [] → l.dropLast ++ [l.getD (l.length - 1) d] = l := by
  intro l
  induction l with
  | nil => intro d h; cases h rfl
  | cons a t ih =>
      intro d _
      cases t with
      | nil => simp
      | cons b t' =>
          have h1 : (a :: b :: t').dropLast = a :: (b :: t').dropLast := rfl
          have h2 : (a :: b :: t').length - 1 = t'.length + 1 := by simp
          have h3 : (a :: b :: t').getD (t'.length + 1) d = (b :: t').getD t'.length d :=
            List.getD_cons_succ
          have h4 : (b :: t').length - 1 = t'.length := by simp
          rw [h1, h2, h3]
          have := ih d (by simp)
          rw [h4] at this
          rw [List.cons_append, this]

theorem length_swapRemove {β : Type} (l : List β) (i : Nat) (d : β) :
    (swapRemove l i d).length = l.length - 1 := by
  simp [swapRemove]

theorem swapRemove_perm {β : Type} :
    ∀ (l : List β) (i : Nat) (d : β), i < l.length →
      (swapRemove l i d).Perm (l.eraseIdx i) := by
  intro l
  induction l with
  | nil => intro i d h; simp at h
  | cons a t ih =>
      intro i d h
      cases i with
      | zero =>
          cases t with
          | nil => simp [swapRemove]
          | cons b t' =>
              have hg : (a :: b :: t').getD ((a :: b :: t').length - 1) d =
                  (b :: t').getD ((b :: t').length - 1) d := by
                have h2 : (a :: b :: t').length - 1 = t'.length + 1 := by simp
                have h4 : (b :: t').length - 1 = t'.length := by simp
                rw [h2, h4]
                exact List.getD_cons_succ
              show (((a :: b :: t').set 0 ((a :: b :: t').getD ((a :: b :: t').length - 1) d)).dropLast).Perm
                ((a :: b :: t').eraseIdx 0)
              rw [hg]
              have hset : (a :: b :: t').set 0 ((b :: t').getD ((b :: t').length - 1) d) =
                  ((b :: t').getD ((b :: t').length - 1) d) :: b :: t' := rfl
              rw [hset, dropLast_cons_ne _ _ (by simp)]
              have heq : (b :: t').dropLast ++ [(b :: t').getD ((b :: t').length - 1) d] =
                  b :: t' := dropLast_append_getD (b :: t') d (by simp)
              show (((b :: t').getD ((b :: t').length - 1) d) :: (b :: t').dropLast).Perm (b :: t')
              have hp : (((b :: t').getD ((b :: t').length - 1) d) :: (b :: t').dropLast).Perm
                  ((b :: t').dropLast ++ [(b :: t').getD ((b :: t').length - 1) d]) :=
                (List.perm_append_singleton _ _).symm
              refine hp.trans ?_
              rw [heq]
      | succ i =>
          have ht : t ≠ [] := by
            intro h'
            subst h'
            simp at h
          have hi : i < t.length := by
            have hlen := h
            simp only [List.length_cons] at hlen
            omega
          have hg : (a :: t).getD ((a :: t).length - 1) d = t.getD (t.length - 1) d := by
            have h2 : (a :: t).length - 1 = t.length := by simp
            rw [h2]
            obtain ⟨n, hn⟩ : ∃ n, t.length = n + 1 := by
              cases t with
              | nil => cases ht rfl
              | cons x xs => exact ⟨xs.length, rfl⟩
            rw [hn]
            have : n + 1 - 1 = n := by omega
            rw [this]
            exact List.getD_cons_succ
          show (((a :: t).set (i + 1) ((a :: t).getD ((a :: t).length - 1) d)).dropLast).Perm
            ((a :: t).eraseIdx (i + 1))
          rw [hg]
          have hset : (a :: t).set (i + 1) (t.getD (t.length - 1) d) =
              a :: t.set i (t.getD (t.length - 1) d) := rfl
          rw [hset]
          have hne : t.set i (t.getD (t.length - 1) d) ≠ [] := by
            intro h'
            have hlen2 : (t.set i (t.getD (t.length - 1) d)).length = ([] : List β).length :=
              congrArg List.length h'
            rw [List.length_set, List.length_nil] at hlen2
            omega
          rw [dropLast_cons_ne _ _ hne]
          show (a :: swapRemove t i d).Perm ((a :: t).eraseIdx (i + 1))
          have herase : (a :: t).eraseIdx (i + 1) = a :: t.eraseIdx i := rfl
          rw [herase]
          exact (ih i d hi).cons a

theorem count_eraseIdx :
    ∀ (l : List Nat) (i x d : Nat), i < l.length →
      (l.eraseIdx i).count x + (if l.getD i d = x then 1 else 0) = l.count x := by
  intro l
  induction l with
  | nil => intro i x d h; simp at h
  | cons a t ih =>
      intro i x d h
      cases i with
      | zero =>
          simp only [List.eraseIdx_cons_zero, List.getD_cons_zero, List.count_cons]
          by_cases hax : a = x
          · simp [hax]
          · have : (a == x) = false := by simpa using hax
            simp [hax, this]
      | succ i =>
          have h' : i < t.length := by simpa using h
          have := ih i x d h'
          simp only [List.eraseIdx_cons_succ, List.getD_cons_succ, List.count_cons]
          by_cases hax : a = x
          · have hb : (a == x) = true := by simpa using hax
            simp only [hb, if_true]
            omega
          · have hb : (a == x) = false := by simpa using hax
            simp only [hb, Bool.false_eq_true, if_false]
            omega

theorem count_swapRemove (l : List Nat) (i x d : Nat) (h : i < l.length) :
    (swapRemove l i d).count x + (if l.getD i d = x then 1 else 0) = l.count x := by
  rw [(swapRemove_perm l i d h).count_eq x]
  exact count_eraseIdx l i x d h

theorem mem_swapRemove {β : Type} (l : List β) (i : Nat) (d : β) (h : i < l.length)
    {x : β} (hx : x ∈ swapRemove l i d) : x ∈ l :=
  (List.eraseIdx_sublist l i).subset ((swapRemove_perm l i d h).subset hx)

theorem nodup_map_swapRemove {β : Type} (l : List Nat) (i : Nat) (f : Nat → β)
    (h : i < l.length) (hnd : (l.map f).Nodup) : ((swapRemove l i 0).map f).Nodup :=
  ((swapRemove_perm l i 0 h).map f).nodup_iff.mpr
    (((List.eraseIdx_sublist l i).map f).nodup hnd)

theorem getD_set_ne {β : Type} :
    ∀ (l : List β) (i j : Nat) (v d : β), i ≠ j → (l.set i v).getD j d = l.getD j d := by
  intro l
  induction l with
  | nil => intro i j v d _; simp
  | cons a t ih =>
      intro i j v d hij
      cases i with
      | zero =>
          cases j with
          | zero => cases hij rfl
          | succ j => simp [List.getD_cons_succ]
      | succ i =>
          cases j with
          | zero => simp [List.getD_cons_zero]
          | succ j =>
              have : (a :: t).set (i + 1) v = a :: t.set i v := rfl
              rw [this, List.getD_cons_succ, List.getD_cons_succ]
              exact ih i j v d (by omega)

theorem getD_dropLast {β : Type} :
    ∀ (l : List β) (j : Nat) (d : β), j < l.length - 1 → l.dropLast.getD j d = l.getD j d := by
  intro l
  induction l with
  | nil => intro j d h; simp at h
  | cons a t ih =>
      intro j d h
      have ht : t ≠ [] := by
        intro h'
        subst h'
        simp at h
      rw [dropLast_cons_ne a t ht]
      cases j with
      | zero => simp
      | succ j =>
          rw [List.getD_cons_succ, List.getD_cons_succ]
          refine ih j d ?_
          have : j + 1 < (a :: t).length - 1 := h
          simp at this
          omega

theorem getD_swapRemove_lt {β : Type} (l : List β) (i j : Nat) (d : β)
    (hij : j < i) (hi : i < l.length) : (swapRemove l i d).getD j d = l.getD j d := by
  unfold swapRemove
  rw [getD_dropLast]
  · exact getD_set_ne l i j _ d (by omega)
  · rw [List.length_set]
    omega

theorem getD_mem {β : Type} :
    ∀ (l : List β) (j : Nat) (d : β), j < l.length → l.getD j d ∈ l := by
  intro l
  induction l with
  | nil => intro j d h; simp at h
  | cons a t ih =>
      intro j d h
      cases j with
      | zero => simp
      | succ j =>
          rw [List.getD_cons_succ]
          exact List.mem_cons_of_mem a (ih j d (by simpa using h))

theorem mem_index_getD {β : Type} :
    ∀ (l : List β) (x : β), x ∈ l → ∀ d : β, ∃ j, j < l.length ∧ l.getD j d = x := by
  intro l
  induction l with
  | nil => intro x hx; cases hx
  | cons a t ih =>
      intro x hx d
      rcases List.mem_cons.mp hx with h | h
      · exact ⟨0, by simp, by simp [h.symm]⟩
      · obtain ⟨j, hj, hx'⟩ := ih x h d
        exact ⟨j + 1, by simpa using Nat.succ_lt_succ hj, by simpa [List.getD_cons_succ] using hx'⟩

/-!  Preservation of well-formedness through the drain phase. -/

theorem wf_of_fields (s s' : AssetStorage α ρ)
    (h1 : s'.assets = s.assets) (h2 : s'.bitset = s.bitset) (h3 : s'.handles = s.handles)
    (h4 : s'.cellId = s.cellId) (h5 : s'.nextCell = s.nextCell)
    (h6 : s'.unusedHandles = s.unusedHandles) (hwf : WFStore s) : WFStore s' := by
  unfold WFStore at hwf ⊢
  rw [h1, h2, h3, h4, h5, h6]
  exact hwf

theorem decExt_wf (s : AssetStorage α ρ) (c : Nat) (hwf : WFStore s) :
    WFStore (decExt s c) :=
  wf_of_fields s (decExt s c) rfl rfl rfl rfl rfl rfl hwf

theorem wf_update_some (s : AssetStorage α ρ) (i : Nat) (p : α × Nat) (hwf : WFStore s) :
    WFStore { s with assets := Function.update s.assets i (some p) } := by
  obtain ⟨w1, w2, w3, w4, w5⟩ := hwf
  refine ⟨?_, w2, w3, w4, w5⟩
  intro j hj
  by_cases hji : j = i
  · subst hji
    simp [Function.update_same]
  · show (Function.update s.assets i (some p) j).isSome = true
    rw [Function.update_noteq hji]
    exact w1 j hj

theorem commitAsset_wf (s : AssetStorage α ρ) (c : Nat) (a : α) (hwf : WFStore s)
    (hfresh : s.bitset (s.cellId c) = false) (hcell : c < s.nextCell) :
    WFStore (commitAsset s c a) := by
  obtain ⟨w1, w2, w3, w4, w5⟩ := hwf
  refine ⟨?_, ?_, ?_, ?_, w5⟩
  · intro i hi
    by_cases hii : i = s.cellId c
    · subst hii
      simp [commitAsset, Function.update_same]
    · simp only [commitAsset] at hi ⊢
      rw [Function.update_noteq hii] at hi
      rw [Function.update_noteq hii]
      exact w1 i hi
  · intro c' hc'
    simp only [commitAsset] at hc' ⊢
    rcases List.mem_append.mp hc' with h | h
    · by_cases hcc : s.cellId c' = s.cellId c
      · rw [hcc, Function.update_same]
      · rw [Function.update_noteq hcc]
        exact w2 c' h
    · rw [List.mem_singleton.mp h, Function.update_same]
  · simp only [commitAsset, List.map_append, List.map_cons, List.map_nil]
    rw [List.nodup_append]
    refine ⟨w3, List.nodup_singleton _, ?_⟩
    rw [List.disjoint_singleton]
    intro hmem
    obtain ⟨c'', hc'', hid⟩ := List.mem_map.mp hmem
    have := w2 c'' hc''
    rw [hid] at this
    rw [this] at hfresh
    cases hfresh
  · intro c' hc'
    simp only [commitAsset] at hc'
    rcases List.mem_append.mp hc' with h | h
    · exact w4 c' h
    · rw [List.mem_singleton.mp h]
      exact hcell

theorem processRecord_wf (f : δ → Except AErr (ProcessingState α δ)) (s : AssetStorage α ρ)
    (eff : Effects α) (r : Processed α δ ρ) (hwf : WFStore s)
    (hhot : recIsHot r = true → s.bitset (handleId s (recHandle r)) = true)
    (hnew : recIsHot r = false → s.bitset (handleId s (recHandle r)) = false)
    (hcell : (recHandle r).cell < s.nextCell) :
    ∃ s' eff' rq, processRecord f s eff r = .ok (s', eff', rq) ∧ WFStore s' ∧
      s'.cellId = s.cellId ∧ s'.nextCell = s.nextCell ∧
      s'.unusedHandles = s.unusedHandles ∧
      (∀ i, s.bitset i = true → s'.bitset i = true) ∧
      (∀ i, s'.bitset i = true →
        s.bitset i = true ∨ (recIsHot r = false ∧ i = handleId s (recHandle r))) := by
  cases r with
  | NewAsset data h name =>
      have hfresh : s.bitset (handleId s h) = false := hnew rfl
      rcases hc : convert f data name with e | st
      · exact ⟨decExt s h.cell,
          { eff with tracker := eff.tracker ++ [.fail (handleId s h) name e] }, none,
          by simp [processRecord, hc],
          decExt_wf s h.cell hwf, rfl, rfl, rfl, fun i hi => hi, fun i hi => Or.inl hi⟩
      · obtain ⟨st, rel⟩ := st
        cases st with
        | Loading x =>
            exact ⟨s, eff, some (.NewAsset (.ok ⟨x, rel⟩) h name),
              by simp [processRecord, hc], hwf, rfl, rfl, rfl,
              fun i hi => hi, fun i hi => Or.inl hi⟩
        | Loaded a =>
            have hwf₁ : WFStore (commitAsset s h.cell a) :=
              commitAsset_wf s h.cell a hwf hfresh hcell
            have hgrow : ∀ i, s.bitset i = true → (commitAsset s h.cell a).bitset i = true := by
              intro i hi
              simp only [commitAsset]
              by_cases hii : i = s.cellId h.cell
              · subst hii; rw [Function.update_same]
              · rw [Function.update_noteq hii]; exact hi
            have hchar : ∀ i, (commitAsset s h.cell a).bitset i = true →
                s.bitset i = true ∨ (recIsHot (.NewAsset data h name : Processed α δ ρ) = false ∧
                  i = handleId s (recHandle (.NewAsset data h name : Processed α δ ρ))) := by
              intro i hi
              simp only [commitAsset] at hi
              by_cases hii : i = s.cellId h.cell
              · exact Or.inr ⟨rfl, hii⟩
              · rw [Function.update_noteq hii] at hi
                exact Or.inl hi
            cases rel with
            | none =>
                refine ⟨decExt (commitAsset s h.cell a) h.cell,
                  { eff with tracker := eff.tracker ++
                      [if isUnique s h.cell = true then
                        .fail (handleId s h) name .UnusedHandle else .success] }, none,
                  by simp [processRecord, hc], decExt_wf _ _ hwf₁, rfl, rfl, rfl, hgrow, hchar⟩
            | some robj =>
                refine ⟨decExt
                    { commitAsset s h.cell a with
                      reloads := (commitAsset s h.cell a).reloads ++ [(h.cell, robj)] } h.cell,
                  { eff with tracker := eff.tracker ++
                      [if isUnique s h.cell = true then
                        .fail (handleId s h) name .UnusedHandle else .success] }, none,
                  by simp [processRecord, hc], ?_, rfl, rfl, rfl, hgrow, hchar⟩
                exact wf_of_fields _ _ rfl rfl rfl rfl rfl rfl hwf₁
  | HotReload data h name oldReload =>
      have hocc : s.bitset (handleId s h) = true := hhot rfl
      rcases hc : convert f data name with e | st
      · refine ⟨decExt { s with reloads := s.reloads ++ [(h.cell, oldReload)] } h.cell,
          eff, none, by simp [processRecord, hc], ?_, rfl, rfl, rfl,
          fun i hi => hi, fun i hi => Or.inl hi⟩
        exact wf_of_fields _ _ rfl rfl rfl rfl rfl rfl hwf
      · obtain ⟨st, rel⟩ := st
        cases st with
        | Loading x =>
            exact ⟨s, eff, some (.HotReload (.ok ⟨x, rel⟩) h name oldReload),
              by simp [processRecord, hc], hwf, rfl, rfl, rfl,
              fun i hi => hi, fun i hi => Or.inl hi⟩
        | Loaded a =>
            have hsome : (s.assets (handleId s h)).isSome = true := hwf.1 _ hocc
            rcases ha : s.assets (handleId s h) with _ | p
            · rw [ha] at hsome; cases hsome
            · obtain ⟨a0, v⟩ := p
              have hwf₁ : WFStore
                  { s with assets := Function.update s.assets (handleId s h) (some (a, v + 1)) } :=
                wf_update_some s (handleId s h) (a, v + 1) hwf
              cases rel with
              | none =>
                  refine ⟨decExt
                      { s with assets := Function.update s.assets (handleId s h) (some (a, v + 1)) }
                      h.cell,
                    { eff with dropped := eff.dropped ++ [a0] }, none,
                    by simp [processRecord, hc, hocc, ha], decExt_wf _ _ hwf₁,
                    rfl, rfl, rfl, fun i hi => hi, fun i hi => Or.inl hi⟩
              | some robj =>
                  refine ⟨decExt
                      { s with
                        assets := Function.update s.assets (handleId s h) (some (a, v + 1)),
                        reloads := s.reloads ++ [(h.cell, robj)] } h.cell,
                    { eff with dropped := eff.dropped ++ [a0] }, none,
                    by simp [processRecord, hc, hocc, ha], ?_,
                    rfl, rfl, rfl, fun i hi => hi, fun i hi => Or.inl hi⟩
                  exact wf_of_fields _ _ rfl rfl rfl rfl rfl rfl hwf₁

theorem drainAll_wf (f : δ → Except AErr (ProcessingState α δ)) :
    ∀ (records : List (Processed α δ ρ)) (s : AssetStorage α ρ) (eff : Effects α)
      (rq : List (Processed α δ ρ)),
      WFStore s →
      (∀ r ∈ records, recIsHot r = true → s.bitset (handleId s (recHandle r)) = true) →
      (∀ r ∈ records, recIsHot r = false → s.bitset (handleId s (recHandle r)) = false) →
      List.Pairwise (fun r₁ r₂ => recIsHot r₁ = false → recIsHot r₂ = false →
        handleId s (recHandle r₁) ≠ handleId s (recHandle r₂)) records →
      (∀ r ∈ records, (recHandle r).cell < s.nextCell) →
      ∃ s' eff' rq', drainAll f s eff records rq = .ok (s', eff', rq') ∧ WFStore s' ∧
        s'.cellId = s.cellId ∧ s'.nextCell = s.nextCell ∧
        s'.unusedHandles = s.unusedHandles ∧
        (∀ i, s.bitset i = true → s'.bitset i = true) := by
  intro records
  induction records with
  | nil =>
      intro s eff rq hwf _ _ _ _
      exact ⟨s, eff, rq, rfl, hwf, rfl, rfl, rfl, fun i hi => hi⟩
  | cons r rs ih =>
      intro s eff rq hwf hhot hnew hpw hcells
      obtain ⟨s₁, eff₁, rq₁, heq, hwf₁, hcid, hnext, hunused, hgrow, hchar⟩ :=
        processRecord_wf f s eff r hwf
          (hhot r (List.mem_cons_self r rs)) (hnew r (List.mem_cons_self r rs))
          (hcells r (List.mem_cons_self r rs))
      have hid : ∀ h' : Handle, handleId s₁ h' = handleId s h' := by
        intro h'
        simp [handleId, hcid]
      have hpw' := List.pairwise_cons.mp hpw
      have hhot' : ∀ r₂ ∈ rs, recIsHot r₂ = true →
          s₁.bitset (handleId s₁ (recHandle r₂)) = true := by
        intro r₂ hr₂ hh
        rw [hid]
        exact hgrow _ (hhot r₂ (List.mem_cons_of_mem r hr₂) hh)
      have hnew' : ∀ r₂ ∈ rs, recIsHot r₂ = false →
          s₁.bitset (handleId s₁ (recHandle r₂)) = false := by
        intro r₂ hr₂ hh
        rw [hid]
        cases hb : s₁.bitset (handleId s (recHandle r₂)) with
        | false => rfl
        | true =>
            rcases hchar _ hb with hold | ⟨hrnew, hsame⟩
            · rw [hnew r₂ (List.mem_cons_of_mem r hr₂) hh] at hold
              cases hold
            · exact absurd hsame.symm (hpw'.1 r₂ hr₂ hrnew hh)
      have hpw₁ : List.Pairwise (fun r₁ r₂ => recIsHot r₁ = false → recIsHot r₂ = false →
          handleId s₁ (recHandle r₁) ≠ handleId s₁ (recHandle r₂)) rs := by
        refine List.Pairwise.imp ?_ hpw'.2
        intro a b hab h1 h2
        rw [hid, hid]
        exact hab h1 h2
      have hcells' : ∀ r₂ ∈ rs, (recHandle r₂).cell < s₁.nextCell := by
        intro r₂ hr₂
        rw [hnext]
        exact hcells r₂ (List.mem_cons_of_mem r hr₂)
      cases rq₁ with
      | none =>
          obtain ⟨s', eff', rq', heq', hwf', hcid', hnext', hunused', hgrow'⟩ :=
            ih s₁ eff₁ rq hwf₁ hhot' hnew' hpw₁ hcells'
          refine ⟨s', eff', rq', ?_, hwf', by rw [hcid', hcid], by rw [hnext', hnext],
            by rw [hunused', hunused], fun i hi => hgrow' i (hgrow i hi)⟩
          show drainAll f s eff (r :: rs) rq = .ok (s', eff', rq')
          rw [drainAll, heq]
          exact heq'
      | some r' =>
          obtain ⟨s', eff', rq', heq', hwf', hcid', hnext', hunused', hgrow'⟩ :=
            ih s₁ eff₁ (rq ++ [r']) hwf₁ hhot' hnew' hpw₁ hcells'
          refine ⟨s', eff', rq', ?_, hwf', by rw [hcid', hcid], by rw [hnext', hnext],
            by rw [hunused', hunused], fun i hi => hgrow' i (hgrow i hi)⟩
          show drainAll f s eff (r :: rs) rq = .ok (s', eff', rq')
          rw [drainAll, heq]
          exact heq'

/-!  Specification of the sweep phase: it never fails on a well-formed
store, only clears bitset bits, and evicts every retained handle whose
strong count is one — the uniqueness of a handle is stable during the
sweep, so the `skip` optimisation of the source loop loses nothing. -/

theorem sweepLoop_spec :
    ∀ (fuel : Nat) (s : AssetStorage α ρ) (skip : Nat) (acc : List α),
      s.handles.length ≤ fuel →
      WFStore s →
      (∀ j, j < skip → j < s.handles.length → isUnique s (s.handles.getD j 0) = false) →
      ∃ s' acc', sweepLoop fuel s skip acc = .ok (s', acc') ∧
        WFStore s' ∧
        s'.external = s.external ∧
        s.nextCell ≤ s'.nextCell ∧
        (∀ x, x < s.nextCell → s'.cellId x = s.cellId x) ∧
        (∀ i, s'.bitset i = true → s.bitset i = true) ∧
        (∀ x, s'.handles.count x ≤ s.handles.count x) ∧
        (∀ c, c ∈ s.handles → strongCount s c = 1 →
          c ∉ s'.handles ∧ s'.bitset (s.cellId c) = false) := by
  intro fuel
  induction fuel with
  | zero =>
      intro s skip acc hfuel hwf hpre
      have hemp : s.handles = [] := List.length_eq_zero.mp (Nat.le_zero.mp hfuel)
      refine ⟨s, acc, rfl, hwf, rfl, le_refl _, fun x _ => rfl, fun i hi => hi,
        fun x => le_refl _, ?_⟩
      intro c hc
      rw [hemp] at hc
      cases hc
  | succ fuel ih =>
      intro s skip acc hfuel hwf hpre
      cases hfind : findIdxP (fun c => isUnique s c) (s.handles.drop skip) with
      | none =>
          refine ⟨s, acc, ?_, hwf, rfl, le_refl _, fun x _ => rfl, fun i hi => hi,
            fun x => le_refl _, ?_⟩
          · simp only [sweepLoop, hfind]
          · intro c hc hsc
            exfalso
            obtain ⟨j, hj, hgd⟩ := mem_index_getD s.handles c hc 0
            by_cases hjs : j < skip
            · have hfj := hpre j hjs hj
              rw [hgd, isUnique] at hfj
              rw [hsc] at hfj
              simp at hfj
            · push_neg at hjs
              have hlend : (s.handles.drop skip).length = s.handles.length - skip :=
                List.length_drop _ _
              have hjd : j - skip < (s.handles.drop skip).length := by
                rw [hlend]; omega
              have hmem := getD_mem (s.handles.drop skip) (j - skip) 0 hjd
              rw [getD_drop_add] at hmem
              have hexp : skip + (j - skip) = j := by omega
              rw [hexp, hgd] at hmem
              have hfalse := findIdxP_none_all hfind _ hmem
              rw [isUnique, hsc] at hfalse
              simp at hfalse
      | some rel =>
          obtain ⟨hrel, hp, hprefix⟩ := findIdxP_some_spec 0 _ rel hfind
          have hlend : (s.handles.drop skip).length = s.handles.length - skip :=
            List.length_drop _ _
          have hi : skip + rel < s.handles.length := by rw [hlend] at hrel; omega
          have hpc : isUnique s (s.handles.getD (skip + rel) 0) = true := by
            rw [getD_drop_add] at hp
            exact hp
          obtain ⟨w1, w2, w3, w4, w5⟩ := hwf
          have hcmem : s.handles.getD (skip + rel) 0 ∈ s.handles := getD_mem _ _ 0 hi
          have hsc1 : strongCount s (s.handles.getD (skip + rel) 0) = 1 := by
            rw [isUnique, beq_iff_eq] at hpc
            exact hpc
          have hocc : s.bitset (s.cellId (s.handles.getD (skip + rel) 0)) = true :=
            w2 _ hcmem
          have hsome := w1 _ hocc
          rcases ha : s.assets (s.cellId (s.handles.getD (skip + rel) 0)) with _ | p
          · rw [ha] at hsome; cases hsome
          obtain ⟨a, v⟩ := p
          -- notation for the swept handle, its id, and the successor state
          set c0 : Nat := s.handles.getD (skip + rel) 0 with hc0
          set id0 : Nat := s.cellId c0 with hid0
          set sn : AssetStorage α ρ :=
            { s with
              handles := swapRemove s.handles (skip + rel) 0
              bitset := Function.update s.bitset id0 false
              assets := Function.update s.assets id0 none
              unusedHandles := s.unusedHandles ++ [s.nextCell]
              cellId := Function.update s.cellId s.nextCell id0
              nextCell := s.nextCell + 1 } with hsn
          have hccount : s.handles.count c0 = 1 ∧ s.external c0 = 0 ∧
              s.unusedHandles.count c0 = 0 := by
            have hpos : 0 < s.handles.count c0 := List.count_pos_iff.mpr hcmem
            rw [strongCount] at hsc1
            omega
          have hcount_sn : ∀ x, sn.handles.count x + (if c0 = x then 1 else 0) =
              s.handles.count x := by
            intro x
            have := count_swapRemove s.handles (skip + rel) x 0 hi
            rw [← hc0] at this
            exact this
          have hnotin_sn : c0 ∉ sn.handles := by
            intro hmem
            have hpos : 0 < sn.handles.count c0 := List.count_pos_iff.mpr hmem
            have := hcount_sn c0
            rw [if_pos rfl] at this
            omega
          have hcid_sn : ∀ x, x < s.nextCell → sn.cellId x = s.cellId x := by
            intro x hx
            show Function.update s.cellId s.nextCell id0 x = s.cellId x
            exact Function.update_noteq (by omega) _ _
          have hucount_sn : ∀ x, x < s.nextCell →
              sn.unusedHandles.count x = s.unusedHandles.count x := by
            intro x hx
            show (s.unusedHandles ++ [s.nextCell]).count x = s.unusedHandles.count x
            rw [List.count_append, List.count_singleton]
            have hne : (s.nextCell == x) = false := by
              simp only [beq_eq_false_iff_ne, ne_eq]
              omega
            rw [hne]
            simp
          have hstrong_sn : ∀ x ∈ s.handles, x ≠ c0 → strongCount sn x = strongCount s x := by
            intro x hx hxc
            rw [strongCount, strongCount]
            have h2 : sn.handles.count x = s.handles.count x := by
              have := hcount_sn x
              rw [if_neg (fun hcx => hxc hcx.symm)] at this
              omega
            have h3 : sn.unusedHandles.count x = s.unusedHandles.count x :=
              hucount_sn x (w4 x hx)
            have h1 : sn.external x = s.external x := rfl
            rw [h1, h2, h3]
          have hmem_sn : ∀ x ∈ sn.handles, x ∈ s.handles := by
            intro x hx
            exact mem_swapRemove s.handles (skip + rel) 0 hi hx
          have hwfn : WFStore sn := by
            refine ⟨?_, ?_, ?_, ?_, ?_⟩
            · intro j hj
              by_cases hji : j = id0
              · subst hji
                have : sn.bitset id0 = false := Function.update_same _ _ _
                rw [this] at hj
                cases hj
              · have hbj : s.bitset j = true := by
                  have : sn.bitset j = s.bitset j := Function.update_noteq hji _ _
                  rw [this] at hj
                  exact hj
                have : sn.assets j = s.assets j := Function.update_noteq hji _ _
                rw [this]
                exact w1 j hbj
            · intro x hx
              have hxs : x ∈ s.handles := hmem_sn x hx
              have hxc : x ≠ c0 := fun hxeq => hnotin_sn (hxeq ▸ hx)
              have hidne : s.cellId x ≠ id0 := by
                intro hcontra
                exact hxc (List.inj_on_of_nodup_map w3 hxs hcmem hcontra)
              have hc1 : sn.cellId x = s.cellId x := hcid_sn x (w4 x hxs)
              rw [hc1]
              have : sn.bitset (s.cellId x) = s.bitset (s.cellId x) :=
                Function.update_noteq hidne _ _
              rw [this]
              exact w2 x hxs
            · have hmapeq : sn.handles.map sn.cellId = sn.handles.map s.cellId := by
                refine List.map_congr_left ?_
                intro x hx
                exact hcid_sn x (w4 x (hmem_sn x hx))
              rw [hmapeq]
              exact nodup_map_swapRemove s.handles (skip + rel) s.cellId hi w3
            · intro x hx
              have : x < s.nextCell := w4 x (hmem_sn x hx)
              show x < s.nextCell + 1
              omega
            · intro x hx
              rcases List.mem_append.mp hx with hxo | hxn
              · have := w5 x hxo
                show x < s.nextCell + 1
                omega
              · rw [List.mem_singleton.mp hxn]
                show s.nextCell < s.nextCell + 1
                omega
          have hlen_sn : sn.handles.length ≤ fuel := by
            have : sn.handles.length = s.handles.length - 1 :=
              length_swapRemove s.handles (skip + rel) 0
            omega
          have hpre_sn : ∀ j, j < skip + rel → j < sn.handles.length →
              isUnique sn (sn.handles.getD j 0) = false := by
            intro j hj hjlen
            have hgd : sn.handles.getD j 0 = s.handles.getD j 0 :=
              getD_swapRemove_lt s.handles (skip + rel) j 0 hj hi
            rw [hgd]
            have hjlens : j < s.handles.length := by omega
            have hmemj : s.handles.getD j 0 ∈ s.handles := getD_mem _ _ 0 hjlens
            have holdfalse : isUnique s (s.handles.getD j 0) = false := by
              by_cases hjs : j < skip
              · exact hpre j hjs hjlens
              · push_neg at hjs
                have hjr : j - skip < rel := by omega
                have := hprefix (j - skip) hjr
                rw [getD_drop_add] at this
                have hexp : skip + (j - skip) = j := by omega
                rw [hexp] at this
                exact this
            have hjc : s.handles.getD j 0 ≠ c0 := by
              intro hcontra
              rw [hcontra, hpc] at holdfalse
              cases holdfalse
            rw [isUnique, hstrong_sn _ hmemj hjc]
            rw [isUnique] at holdfalse
            exact holdfalse
          obtain ⟨s₂, acc₂, heq₂, hwf₂, hext₂, hnext₂, hcid₂, hbit₂, hcount₂, hperc₂⟩ :=
            ih sn (skip + rel) (acc ++ [a]) hlen_sn hwfn hpre_sn
          refine ⟨s₂, acc₂, ?_, hwf₂, hext₂, ?_, ?_, ?_, ?_, ?_⟩
          · show sweepLoop (fuel + 1) s skip acc = .ok (s₂, acc₂)
            simp only [sweepLoop, hfind, ← hc0, ← hid0, ha]
            exact heq₂
          · have : s.nextCell + 1 ≤ s₂.nextCell := by
              have hsn' : sn.nextCell = s.nextCell + 1 := rfl
              rw [← hsn']
              exact hnext₂
            omega
          · intro x hx
            have h1 : s₂.cellId x = sn.cellId x := hcid₂ x (by
              show x < s.nextCell + 1
              omega)
            rw [h1]
            exact hcid_sn x hx
          · intro j hj
            have hjn := hbit₂ j hj
            by_cases hji : j = id0
            · subst hji
              have : sn.bitset id0 = false := Function.update_same _ _ _
              rw [this] at hjn
              cases hjn
            · have : sn.bitset j = s.bitset j := Function.update_noteq hji _ _
              rw [this] at hjn
              exact hjn
          · intro x
            have h1 := hcount₂ x
            have h2 := hcount_sn x
            by_cases hcx : c0 = x
            · rw [if_pos hcx] at h2
              omega
            · rw [if_neg hcx] at h2
              omega
          · intro ch hch hsch
            by_cases hcc : ch = c0
            · subst hcc
              constructor
              · intro hmem₂
                have hpos : 0 < s₂.handles.count c0 := List.count_pos_iff.mpr hmem₂
                have h1 := hcount₂ c0
                have h2 := hcount_sn c0
                rw [if_pos rfl] at h2
                omega
              · rw [← hid0]
                cases hb : s₂.bitset id0 with
                | false => rfl
                | true =>
                    have := hbit₂ id0 hb
                    have hfalse : sn.bitset id0 = false := Function.update_same _ _ _
                    rw [hfalse] at this
                    cases this
            · have hmemn : ch ∈ sn.handles := by
                have h2 := hcount_sn ch
                rw [if_neg (fun hcx => hcc hcx.symm)] at h2
                have hpos : 0 < s.handles.count ch := List.count_pos_iff.mpr hch
                refine List.count_pos_iff.mp ?_
                omega
              have hstr : strongCount sn ch = 1 := by
                rw [hstrong_sn ch hch hcc]
                exact hsch
              obtain ⟨hnot₂, hbit₂'⟩ := hperc₂ ch hmemn hstr
              refine ⟨hnot₂, ?_⟩
              have : sn.cellId ch = s.cellId ch := hcid_sn ch (w4 ch hch)
              rw [← this]
              exact hbit₂'

/-- Claim C3, counterexample.  The claim states that `process` never
fails for every state and queue, in particular even when a `HotReload`
record's handle id is not occupied in the bitset at drain time.  On the
empty store, draining a `HotReload` record whose conversion succeeds
trips the source's `assert!` — the process call fails. -/
theorem c3_counterexample :
    processTick (fun d : Nat => Except.ok (ProcessingState.Loaded d)) false (fun _ => false)
      (initStorage Nat Unit) [.HotReload (.ok ⟨5, none⟩) ⟨0⟩ "tex" ()] =
      .error "Expected handle to be valid, but the asset storage says otherwise" ∧
    containsId (initStorage Nat Unit) (handleId (initStorage Nat Unit) ⟨0⟩) = false :=
  ⟨rfl, rfl⟩

/-- Claim C3, amended.  Every worker-side error arrives as `Err` inside
a record and is handled locally in the per-record arm, and the process
call completes without failing on every well-formed store and every
queue snapshot obeying the loader discipline — in particular, every
`HotReload` record's handle id must be occupied at drain time; a
`HotReload` record whose conversion yields `Loaded` while its id is
unoccupied makes the drain phase fail through the source's `assert!`. -/
theorem c3_process_never_fails_amended [Inhabited ρ]
    (f : δ → Except AErr (ProcessingState α δ)) (strat : Bool) (needs : ρ → Bool)
    (s : AssetStorage α ρ) (records : List (Processed α δ ρ))
    (hwf : WFStore s) (hrecs : RecsOK s records) :
    ∃ out, processTick f strat needs s records = .ok out := by
  obtain ⟨h1, h2, h3, h4⟩ := hrecs
  obtain ⟨s₁, eff₁, rq₁, heq₁, hwf₁, _, _, _, _⟩ :=
    drainAll_wf f records s Effects.empty [] hwf h1 h2 h3 h4
  obtain ⟨s₂, acc₂, heq₂, _, _, _, _, _, _, _⟩ :=
    sweepLoop_spec s₁.handles.length s₁ 0 [] (le_refl _) hwf₁
      (fun j hj _ => absurd hj (Nat.not_lt_zero j))
  refine ⟨(if strat = true then (hotReload needs s₂).1 else s₂,
    { eff₁ with dropped := eff₁.dropped ++ acc₂ }, rq₁), ?_⟩
  simp only [processTick, heq₁, sweep, heq₂]

/-- Claim C3, witness: a well-formed singleton queue processed on the
store `wRec` completes. -/
theorem c3_witness :
    WFStore wRec ∧
    RecsOK wRec [(.NewAsset (.ok ⟨5, none⟩) ⟨0⟩ "tex" : Processed Nat Nat Unit)] ∧
    ∃ out, processTick (fun d : Nat => Except.ok (ProcessingState.Loaded d)) false
      (fun _ => false) wRec [.NewAsset (.ok ⟨5, none⟩) ⟨0⟩ "tex"] = .ok out := by
  have hwf : WFStore wRec := by
    refine ⟨?_, ?_, ?_, ?_, ?_⟩
    · intro i hi
      simp [wRec, initStorage] at hi
    · intro c hc
      simp [wRec, initStorage] at hc
    · simp [wRec, initStorage]
    · intro c hc
      simp [wRec, initStorage] at hc
    · intro c hc
      simp [wRec, initStorage] at hc
  have hrecs : RecsOK wRec [(.NewAsset (.ok ⟨5, none⟩) ⟨0⟩ "tex" : Processed Nat Nat Unit)] := by
    refine ⟨?_, ?_, ?_, ?_⟩
    · intro r hr hh
      rw [List.mem_singleton.mp hr] at hh
      cases hh
    · intro r hr _
      rw [List.mem_singleton.mp hr]
      rfl
    · exact List.pairwise_singleton _ _
    · intro r hr
      rw [List.mem_singleton.mp hr]
      show (0 : Nat) < 1
      omega
  exact ⟨hwf, hrecs, c3_process_never_fails_amended _ false _ wRec _ hwf hrecs⟩

/-- Claim C4, counterexample.  The claim states that when a `NewAsset`
record with a unique handle (strong count one) is converted to `Loaded`,
the tracker is failed with `UnusedHandle` and the asset is committed
*so that `get` on that handle returns the asset after the tick*.  The
commit does happen during the drain phase, but the record's handle is
dropped before phase P2 of the same tick, which therefore observes the
store's retained clone as unique and reclaims the slot immediately:
after the full tick `contains` is false, `get` is `none`, and the asset
has been handed to `drop_fn`. -/
theorem c4_counterexample :
    strongCount wRec 0 = 1 ∧
    (processTick (fun d : Nat => Except.ok (ProcessingState.Loaded d)) false (fun _ => false)
        wRec [.NewAsset (.ok ⟨7, none⟩) ⟨0⟩ "tex"]).map
      (fun out => (contains out.1 ⟨0⟩, getAsset out.1 ⟨0⟩, out.2.1.tracker, out.2.1.dropped,
        out.2.2)) =
      .ok (false, none, [.fail 0 "tex" .UnusedHandle], [7], []) :=
  ⟨rfl, rfl⟩

/-- Claim C4, amended.  When the drain phase converts a `NewAsset`
record to `Loaded` and the record's handle is unique (strong count
exactly one, held by the record itself), the tracker's `fail` is called
with an `UnusedHandle` error instead of success, and the asset is
nevertheless committed by the drain phase: the bitset gains the id, a
retained strong handle is pushed into `handles`, `(asset, 0)` is written
at the id, and `get` on that handle returns the asset after the drain
phase.  However, the record's handle is dropped before the same tick's
sweep phase, which finds the retained clone unique and reclaims the
slot: after the full tick `get` reports absent. -/
theorem c4_unused_handle_amended [Inhabited ρ] (f : δ → Except AErr (ProcessingState α δ))
    (needs : ρ → Bool) (s : AssetStorage α ρ) (h : Handle) (name : String) (d : δ) (a : α)
    (hwf : WFStore s)
    (hf : f d = .ok (.Loaded a))
    (hcell : h.cell < s.nextCell)
    (hsc : strongCount s h.cell = 1)
    (hrec : 0 < s.external h.cell)
    (hfree : s.bitset (handleId s h) = false) :
    (∃ s₁, drainAll f s Effects.empty [.NewAsset (.ok ⟨d, none⟩) h name] [] =
        .ok (s₁, (⟨[.fail (handleId s h) name .UnusedHandle], []⟩ : Effects α), []) ∧
      s₁.bitset (handleId s h) = true ∧ h.cell ∈ s₁.handles ∧
      s₁.assets (handleId s h) = some (a, 0) ∧ getAsset s₁ h = some a) ∧
    (∃ s₂ eff₂, processTick f false needs s [.NewAsset (.ok ⟨d, none⟩) h name] =
        .ok (s₂, eff₂, []) ∧
      getAsset s₂ h = none ∧ contains s₂ h = false ∧
      eff₂.tracker = [.fail (handleId s h) name .UnusedHandle]) := by
  have hdec : s.external h.cell = 1 ∧ s.handles.count h.cell = 0 ∧
      s.unusedHandles.count h.cell = 0 := by
    rw [strongCount] at hsc
    omega
  have hconv : convert f (.ok ⟨d, none⟩) name =
      .ok (ProcessingState.Loaded a, (none : Option ρ)) := by
    simp [convert, hf]
  have huniq : isUnique s h.cell = true := by
    rw [isUnique, hsc]
    rfl
  have hdrain : drainAll f s Effects.empty [.NewAsset (.ok ⟨d, none⟩) h name] [] =
      .ok (decExt (commitAsset s h.cell a) h.cell,
        (⟨[.fail (handleId s h) name .UnusedHandle], []⟩ : Effects α), []) := by
    simp only [drainAll, processRecord, hconv, huniq, if_true]
    rfl
  have hbit₁ : (decExt (commitAsset s h.cell a) h.cell).bitset (handleId s h) = true := by
    show (Function.update s.bitset (s.cellId h.cell) true) (s.cellId h.cell) = true
    exact Function.update_same _ _ _
  have hass₁ : (decExt (commitAsset s h.cell a) h.cell).assets (handleId s h) = some (a, 0) := by
    show (Function.update s.assets (s.cellId h.cell) (some (a, 0))) (s.cellId h.cell) = some (a, 0)
    exact Function.update_same _ _ _
  have hmem₁ : h.cell ∈ (decExt (commitAsset s h.cell a) h.cell).handles := by
    show h.cell ∈ s.handles ++ [h.cell]
    exact List.mem_append.mpr (Or.inr (List.mem_singleton.mpr rfl))
  have hget₁ : getAsset (decExt (commitAsset s h.cell a) h.cell) h = some a := by
    rw [getAsset]
    have hid : handleId (decExt (commitAsset s h.cell a) h.cell) h = handleId s h := rfl
    rw [hid, hbit₁, hass₁]
    simp
  refine ⟨⟨decExt (commitAsset s h.cell a) h.cell, hdrain, hbit₁, hmem₁, hass₁, hget₁⟩, ?_⟩
  -- the full tick: the sweep reclaims the freshly committed slot
  have hwf₁ : WFStore (decExt (commitAsset s h.cell a) h.cell) :=
    decExt_wf _ _ (commitAsset_wf s h.cell a hwf hfree hcell)
  have hsc₁ : strongCount (decExt (commitAsset s h.cell a) h.cell) h.cell = 1 := by
    rw [strongCount]
    have he : (decExt (commitAsset s h.cell a) h.cell).external h.cell =
        s.external h.cell - 1 := Function.update_same _ _ _
    have hh : (decExt (commitAsset s h.cell a) h.cell).handles.count h.cell =
        s.handles.count h.cell + 1 := by
      show (s.handles ++ [h.cell]).count h.cell = s.handles.count h.cell + 1
      rw [List.count_append, List.count_singleton]
      simp
    have hu : (decExt (commitAsset s h.cell a) h.cell).unusedHandles.count h.cell =
        s.unusedHandles.count h.cell := rfl
    rw [he, hh, hu]
    omega
  obtain ⟨s₂, acc₂, heq₂, hwf₂, hext₂, hnext₂, hcid₂, hbit₂, hcount₂, hperc₂⟩ :=
    sweepLoop_spec (decExt (commitAsset s h.cell a) h.cell).handles.length
      (decExt (commitAsset s h.cell a) h.cell) 0 [] (le_refl _) hwf₁
      (fun j hj _ => absurd hj (Nat.not_lt_zero j))
  obtain ⟨hnot₂, hbitfalse⟩ := hperc₂ h.cell hmem₁ hsc₁
  have hid₂ : handleId s₂ h = handleId s h := by
    rw [handleId, handleId]
    have : s₂.cellId h.cell = (decExt (commitAsset s h.cell a) h.cell).cellId h.cell :=
      hcid₂ h.cell (by
        show h.cell < s.nextCell
        exact hcell)
    rw [this]
    rfl
  have hbfalse₂ : s₂.bitset (handleId s h) = false := by
    show s₂.bitset (s.cellId h.cell) = false
    have hcideq : (decExt (commitAsset s h.cell a) h.cell).cellId h.cell = s.cellId h.cell := rfl
    rw [← hcideq]
    exact hbitfalse
  refine ⟨s₂, ⟨[.fail (handleId s h) name .UnusedHandle], [] ++ acc₂⟩, ?_, ?_, ?_, rfl⟩
  · show processTick f false needs s [.NewAsset (.ok ⟨d, none⟩) h name] =
      .ok (s₂, (⟨[.fail (handleId s h) name .UnusedHandle], [] ++ acc₂⟩ : Effects α), [])
    simp only [processTick, hdrain, sweep, heq₂]
    rfl
  · rw [getAsset, hid₂, hbfalse₂]
    simp
  · rw [contains, hid₂]
    exact hbfalse₂

/-- Claim C4, witness: the concrete unused-handle load on `wRec`. -/
theorem c4_witness :
    (WFStore wRec ∧ strongCount wRec 0 = 1 ∧ 0 < wRec.external 0 ∧
      wRec.bitset (handleId wRec ⟨0⟩) = false ∧ (0 : Nat) < wRec.nextCell) ∧
    ((∃ s₁, drainAll (fun d : Nat => Except.ok (ProcessingState.Loaded d)) wRec Effects.empty
        [.NewAsset (.ok ⟨7, none⟩) ⟨0⟩ "tex"] [] =
        .ok (s₁, (⟨[.fail (handleId wRec ⟨0⟩) "tex" .UnusedHandle], []⟩ : Effects Nat), []) ∧
      s₁.bitset (handleId wRec ⟨0⟩) = true ∧ (0 : Nat) ∈ s₁.handles ∧
      s₁.assets (handleId wRec ⟨0⟩) = some (7, 0) ∧ getAsset s₁ ⟨0⟩ = some 7) ∧
    (∃ s₂ eff₂, processTick (fun d : Nat => Except.ok (ProcessingState.Loaded d)) false
        (fun _ => false) wRec [.NewAsset (.ok ⟨7, none⟩) ⟨0⟩ "tex"] = .ok (s₂, eff₂, []) ∧
      getAsset s₂ ⟨0⟩ = none ∧ contains s₂ ⟨0⟩ = false ∧
      eff₂.tracker = [.fail (handleId wRec ⟨0⟩) "tex" .UnusedHandle])) := by
  have hwf : WFStore wRec := by
    refine ⟨?_, ?_, ?_, ?_, ?_⟩
    · intro i hi
      simp [wRec, initStorage] at hi
    · intro c hc
      simp [wRec, initStorage] at hc
    · simp [wRec, initStorage]
    · intro c hc
      simp [wRec, initStorage] at hc
    · intro c hc
      simp [wRec, initStorage] at hc
  refine ⟨⟨hwf, rfl, by decide, rfl, by decide⟩, ?_⟩
  exact c4_unused_handle_amended (fun d : Nat => Except.ok (ProcessingState.Loaded d))
    (fun _ => false) wRec ⟨0⟩ "tex" 7 7 hwf rfl (by decide) rfl (by decide) rfl

/-!  Strong-count bookkeeping of the transition system's events. -/

theorem strongCount_applyAllocNew (s : AssetStorage α ρ) (x : Nat) (hx : x ≠ s.nextCell) :
    strongCount (applyAllocNew s) x = strongCount s x := by
  show Function.update s.external s.nextCell 1 x + s.handles.count x +
    s.unusedHandles.count x = s.external x + s.handles.count x + s.unusedHandles.count x
  rw [Function.update_noteq hx]

theorem strongCount_applyAllocPop (s : AssetStorage α ρ) (c : Nat) (rest : List Nat)
    (hu : s.unusedHandles = c :: rest) (x : Nat) :
    strongCount (applyAllocPop s c rest) x = strongCount s x := by
  show Function.update s.external c (s.external c + 1) x + s.handles.count x + rest.count x =
    s.external x + s.handles.count x + s.unusedHandles.count x
  rw [hu, List.count_cons]
  by_cases hxc : x = c
  · subst hxc
    rw [Function.update_same]
    have : (x == x) = true := beq_self_eq_true x
    rw [this]
    simp
    omega
  · rw [Function.update_noteq hxc]
    have : (c == x) = false := by
      simp only [beq_eq_false_iff_ne, ne_eq]
      exact fun h => hxc h.symm
    rw [this]
    simp

theorem strongCount_bumpExt (s : AssetStorage α ρ) (c x : Nat) :
    strongCount (bumpExt s c) x = strongCount s x + (if x = c then 1 else 0) := by
  show Function.update s.external c (s.external c + 1) x + s.handles.count x +
    s.unusedHandles.count x = _
  by_cases hxc : x = c
  · subst hxc
    rw [Function.update_same, if_pos rfl, strongCount]
    omega
  · rw [Function.update_noteq hxc, if_neg hxc, strongCount]
    omega

theorem strongCount_decExt_ne (s : AssetStorage α ρ) (c x : Nat) (hx : x ≠ c) :
    strongCount (decExt s c) x = strongCount s x := by
  show Function.update s.external c (s.external c - 1) x + s.handles.count x +
    s.unusedHandles.count x = _
  rw [Function.update_noteq hx, strongCount]

theorem strongCount_decExt_le (s : AssetStorage α ρ) (c x : Nat) :
    strongCount (decExt s c) x ≤ strongCount s x := by
  show Function.update s.external c (s.external c - 1) x + s.handles.count x +
    s.unusedHandles.count x ≤ strongCount s x
  rw [strongCount]
  by_cases hxc : x = c
  · subst hxc
    rw [Function.update_same]
    omega
  · rw [Function.update_noteq hxc]

theorem strongCount_commitAsset (s : AssetStorage α ρ) (c : Nat) (a : α) (x : Nat) :
    strongCount (commitAsset s c a) x = strongCount s x + (if x = c then 1 else 0) := by
  show s.external x + (s.handles ++ [c]).count x + s.unusedHandles.count x = _
  rw [List.count_append, List.count_singleton, strongCount]
  by_cases hxc : x = c
  · subst hxc
    have : (x == x) = true := beq_self_eq_true x
    rw [this, if_pos rfl]
    simp
    omega
  · have : (c == x) = false := by
      simp only [beq_eq_false_iff_ne, ne_eq]
      exact fun h => hxc h.symm
    rw [this, if_neg hxc]
    simp

theorem strongCount_applySweepOne_ne (s : AssetStorage α ρ) (c x : Nat) (hx : x ≠ c)
    (hxn : x ≠ s.nextCell) : strongCount (applySweepOne s c) x = strongCount s x := by
  show s.external x + (s.handles.erase c).count x + (s.unusedHandles ++ [s.nextCell]).count x = _
  rw [List.count_erase_of_ne hx, List.count_append, List.count_singleton]
  have : (s.nextCell == x) = false := by
    simp only [beq_eq_false_iff_ne, ne_eq]
    exact fun h => hxn h.symm
  rw [this, strongCount]
  simp

theorem strongCount_applySweepOne_self (s : AssetStorage α ρ) (c : Nat)
    (hsc : strongCount s c = 1) (hmem : c ∈ s.handles) (hcn : c ≠ s.nextCell) :
    strongCount (applySweepOne s c) c = 0 := by
  have hpos : 0 < s.handles.count c := List.count_pos_iff.mpr hmem
  have hdec : s.external c = 0 ∧ s.handles.count c = 1 ∧ s.unusedHandles.count c = 0 := by
    rw [strongCount] at hsc
    omega
  show s.external c + (s.handles.erase c).count c + (s.unusedHandles ++ [s.nextCell]).count c = 0
  rw [List.count_erase_self, List.count_append, List.count_singleton]
  have : (s.nextCell == c) = false := by
    simp only [beq_eq_false_iff_ne, ne_eq]
    exact fun h => hcn h.symm
  rw [this]
  simp
  omega

theorem strongCount_applySweepOne_next (s : AssetStorage α ρ) (c : Nat)
    (hfresh : strongCount s s.nextCell = 0) (hcn : c ≠ s.nextCell) :
    strongCount (applySweepOne s c) s.nextCell = 1 := by
  have hdec : s.external s.nextCell = 0 ∧ s.handles.count s.nextCell = 0 ∧
      s.unusedHandles.count s.nextCell = 0 := by
    rw [strongCount] at hfresh
    omega
  show s.external s.nextCell + (s.handles.erase c).count s.nextCell +
    (s.unusedHandles ++ [s.nextCell]).count s.nextCell = 1
  rw [List.count_erase_of_ne (fun h => hcn h.symm), List.count_append, List.count_singleton]
  have : (s.nextCell == s.nextCell) = true := beq_self_eq_true _
  rw [this]
  simp
  omega

theorem cellInv_of_fields (s s' : AssetStorage α ρ) (h1 : s'.counter = s.counter)
    (h2 : s'.nextCell = s.nextCell) (h3 : s'.cellId = s.cellId)
    (h4 : ∀ x, strongCount s' x = strongCount s x) (hinv : CellInv s) : CellInv s' := by
  obtain ⟨i1, i2, i3⟩ := hinv
  refine ⟨?_, ?_, ?_⟩
  · intro c hc
    rw [h1, h3]
    exact i1 c (h2 ▸ hc)
  · intro c c' hc hc' hne hid
    rw [h3] at hid
    rw [h4, h4]
    exact i2 c c' (h2 ▸ hc) (h2 ▸ hc') hne hid
  · intro c hc
    rw [h2]
    rw [h4] at hc
    exact i3 c hc

theorem storeReach_counter_le {n : Nat} {s : AssetStorage α ρ} (hr : StoreReach n s) :
    s.counter ≤ n := by
  induction hr with
  | init => exact Nat.le_refl 0
  | step hr hstep ih =>
      cases hstep with
      | allocNew hu =>
          show (_ + 1) % usizeMod ≤ _ + 1
          exact le_trans (Nat.mod_le _ _) (by omega)
      | allocPop c rest hu => exact le_trans ih (Nat.le_succ _)
      | upgradeOrClone c hg => exact le_trans ih (Nat.le_succ _)
      | dropHandle c hg => exact le_trans ih (Nat.le_succ _)
      | commitNew c a hg => exact le_trans ih (Nat.le_succ _)
      | mutate i a hg => exact le_trans ih (Nat.le_succ _)
      | sweepOne c hm hg => exact le_trans ih (Nat.le_succ _)
      | unload => exact le_trans ih (Nat.le_succ _)
      | pushReload c r => exact le_trans ih (Nat.le_succ _)

theorem storeReach_cellInv {n : Nat} {s : AssetStorage α ρ} (hr : StoreReach n s)
    (hn : n < u32Mod) : CellInv s := by
  induction hr with
  | init =>
      refine ⟨?_, ?_, ?_⟩
      · intro c hc
        exact absurd hc (Nat.not_lt_zero c)
      · intro c c' hc _ _ _
        exact absurd hc (Nat.not_lt_zero c)
      · intro c hc
        have : strongCount (initStorage α ρ) c = 0 := rfl
        rw [this] at hc
        exact absurd hc (Nat.lt_irrefl 0)
  | @step n s s' hr hstep ih =>
      have hn' : n < u32Mod := by omega
      obtain ⟨i1, i2, i3⟩ := ih hn'
      have hcnt := storeReach_counter_le hr
      have hclt : s.counter < u32Mod := by omega
      have h32 : u32Mod = 4294967296 := by norm_num [u32Mod]
      have h64 : usizeMod = 18446744073709551616 := by norm_num [usizeMod]
      cases hstep with
      | allocNew hu =>
          have hc1 : (s.counter + 1) % usizeMod = s.counter + 1 :=
            Nat.mod_eq_of_lt (by omega)
          have hcm : s.counter % u32Mod = s.counter := Nat.mod_eq_of_lt hclt
          refine ⟨?_, ?_, ?_⟩
          · intro c hc
            have hc' : c < s.nextCell + 1 := hc
            show Function.update s.cellId s.nextCell (s.counter % u32Mod) c <
              (s.counter + 1) % usizeMod
            rw [hc1, hcm]
            by_cases hcn : c = s.nextCell
            · subst hcn
              rw [Function.update_same]
              omega
            · rw [Function.update_noteq hcn]
              have hlt : c < s.nextCell := by omega
              have := i1 c hlt
              omega
          · intro c c' hc hc' hne hid
            have hcb : c < s.nextCell + 1 := hc
            have hcb' : c' < s.nextCell + 1 := hc'
            by_cases hcn : c = s.nextCell
            · by_cases hcn' : c' = s.nextCell
              · exact absurd (hcn.trans hcn'.symm) hne
              · exfalso
                have hlt' : c' < s.nextCell := by omega
                have hidc : (applyAllocNew s).cellId c = s.counter % u32Mod := by
                  rw [hcn]
                  exact Function.update_same _ _ _
                have hidc' : (applyAllocNew s).cellId c' = s.cellId c' :=
                  Function.update_noteq hcn' _ _
                rw [hidc, hidc', hcm] at hid
                have := i1 c' hlt'
                omega
            · by_cases hcn' : c' = s.nextCell
              · exfalso
                have hlt : c < s.nextCell := by omega
                have hidc : (applyAllocNew s).cellId c = s.cellId c :=
                  Function.update_noteq hcn _ _
                have hidc' : (applyAllocNew s).cellId c' = s.counter % u32Mod := by
                  rw [hcn']
                  exact Function.update_same _ _ _
                rw [hidc, hidc', hcm] at hid
                have := i1 c hlt
                omega
              · have hlt : c < s.nextCell := by omega
                have hlt' : c' < s.nextCell := by omega
                have hidc : (applyAllocNew s).cellId c = s.cellId c :=
                  Function.update_noteq hcn _ _
                have hidc' : (applyAllocNew s).cellId c' = s.cellId c' :=
                  Function.update_noteq hcn' _ _
                rw [hidc, hidc'] at hid
                rw [strongCount_applyAllocNew s c hcn, strongCount_applyAllocNew s c' hcn']
                exact i2 c c' hlt hlt' hne hid
          · intro c hc0
            show c < s.nextCell + 1
            by_cases hcn : c = s.nextCell
            · omega
            · rw [strongCount_applyAllocNew s c hcn] at hc0
              have := i3 c hc0
              omega
      | allocPop c rest hu =>
          exact cellInv_of_fields s (applyAllocPop s c rest) rfl rfl rfl
            (strongCount_applyAllocPop s c rest hu) ⟨i1, i2, i3⟩
      | upgradeOrClone c hg =>
          refine ⟨?_, ?_, ?_⟩
          · intro c0 hc0
            exact i1 c0 hc0
          · intro c0 c0' hc0 hc0' hne hid
            rcases i2 c0 c0' hc0 hc0' hne hid with h0 | h0
            · left
              rw [strongCount_bumpExt]
              by_cases hcc : c0 = c
              · subst hcc
                omega
              · rw [if_neg hcc, h0]
            · right
              rw [strongCount_bumpExt]
              by_cases hcc : c0' = c
              · subst hcc
                omega
              · rw [if_neg hcc, h0]
          · intro c0 h0
            rw [strongCount_bumpExt] at h0
            show c0 < s.nextCell
            by_cases hcc : c0 = c
            · subst hcc
              exact i3 c0 hg
            · rw [if_neg hcc] at h0
              exact i3 c0 (by omega)
      | dropHandle c hg =>
          refine ⟨?_, ?_, ?_⟩
          · intro c0 hc0
            exact i1 c0 hc0
          · intro c0 c0' hc0 hc0' hne hid
            rcases i2 c0 c0' hc0 hc0' hne hid with h0 | h0
            · left
              have := strongCount_decExt_le s c c0
              omega
            · right
              have := strongCount_decExt_le s c c0'
              omega
          · intro c0 h0
            have := strongCount_decExt_le s c c0
            exact i3 c0 (by omega)
      | commitNew c a hg =>
          have hgs : 0 < strongCount s c := by
            rw [strongCount]
            omega
          refine ⟨?_, ?_, ?_⟩
          · intro c0 hc0
            exact i1 c0 hc0
          · intro c0 c0' hc0 hc0' hne hid
            rcases i2 c0 c0' hc0 hc0' hne hid with h0 | h0
            · left
              rw [strongCount_commitAsset]
              by_cases hcc : c0 = c
              · subst hcc
                omega
              · rw [if_neg hcc, h0]
            · right
              rw [strongCount_commitAsset]
              by_cases hcc : c0' = c
              · subst hcc
                omega
              · rw [if_neg hcc, h0]
          · intro c0 h0
            rw [strongCount_commitAsset] at h0
            show c0 < s.nextCell
            by_cases hcc : c0 = c
            · subst hcc
              exact i3 c0 hgs
            · rw [if_neg hcc] at h0
              exact i3 c0 (by omega)
      | mutate i a hg =>
          exact cellInv_of_fields s (applyMutate s i a) rfl rfl rfl (fun x => rfl) ⟨i1, i2, i3⟩
      | unload =>
          exact cellInv_of_fields s (unloadAll s) rfl rfl rfl (fun x => rfl) ⟨i1, i2, i3⟩
      | pushReload c r =>
          exact cellInv_of_fields s _ rfl rfl rfl (fun x => rfl) ⟨i1, i2, i3⟩
      | sweepOne c hm hg =>
          have hcin : c < s.nextCell := i3 c (by rw [hg]; omega)
          have hcn : c ≠ s.nextCell := by omega
          have hfresh : strongCount s s.nextCell = 0 := by
            by_contra h0
            have hpos : 0 < strongCount s s.nextCell := Nat.pos_of_ne_zero h0
            have := i3 _ hpos
            omega
          refine ⟨?_, ?_, ?_⟩
          · intro c0 hc0
            have hc0' : c0 < s.nextCell + 1 := hc0
            show Function.update s.cellId s.nextCell (s.cellId c) c0 < s.counter
            by_cases hx : c0 = s.nextCell
            · subst hx
              rw [Function.update_same]
              exact i1 c hcin
            · rw [Function.update_noteq hx]
              exact i1 c0 (by omega)
          · intro c0 c0' hc0 hc0' hne hid
            have hb0 : c0 < s.nextCell + 1 := hc0
            have hb0' : c0' < s.nextCell + 1 := hc0'
            by_cases hx : c0 = s.nextCell
            · by_cases hx' : c0' = s.nextCell
              · exact absurd (hx.trans hx'.symm) hne
              · have hlt' : c0' < s.nextCell := by omega
                have hidc : (applySweepOne s c).cellId c0 = s.cellId c := by
                  rw [hx]
                  exact Function.update_same _ _ _
                have hidc' : (applySweepOne s c).cellId c0' = s.cellId c0' :=
                  Function.update_noteq hx' _ _
                rw [hidc, hidc'] at hid
                right
                by_cases hcc : c0' = c
                · subst hcc
                  rw [strongCount_applySweepOne_self s c0' hg hm hcn]
                · have h2 := i2 c c0' hcin hlt' (fun h => hcc h.symm) hid
                  rcases h2 with h0 | h0
                  · rw [hg] at h0
                    cases h0
                  · rw [strongCount_applySweepOne_ne s c c0' hcc hx']
                    exact h0
            · by_cases hx' : c0' = s.nextCell
              · have hlt : c0 < s.nextCell := by omega
                have hidc : (applySweepOne s c).cellId c0 = s.cellId c0 :=
                  Function.update_noteq hx _ _
                have hidc' : (applySweepOne s c).cellId c0' = s.cellId c := by
                  rw [hx']
                  exact Function.update_same _ _ _
                rw [hidc, hidc'] at hid
                left
                by_cases hcc : c0 = c
                · subst hcc
                  rw [strongCount_applySweepOne_self s c0 hg hm hcn]
                · have h2 := i2 c c0 hcin hlt (fun h => hcc h.symm) hid.symm
                  rcases h2 with h0 | h0
                  · rw [hg] at h0
                    cases h0
                  · rw [strongCount_applySweepOne_ne s c c0 hcc hx]
                    exact h0
              · have hlt : c0 < s.nextCell := by omega
                have hlt' : c0' < s.nextCell := by omega
                have hidc : (applySweepOne s c).cellId c0 = s.cellId c0 :=
                  Function.update_noteq hx _ _
                have hidc' : (applySweepOne s c).cellId c0' = s.cellId c0' :=
                  Function.update_noteq hx' _ _
                rw [hidc, hidc'] at hid
                rcases i2 c0 c0' hlt hlt' hne hid with h0 | h0
                · left
                  by_cases hcc : c0 = c
                  · subst hcc
                    rw [strongCount_applySweepOne_self s c0 hg hm hcn]
                  · rw [strongCount_applySweepOne_ne s c c0 hcc hx]
                    exact h0
                · right
                  by_cases hcc : c0' = c
                  · subst hcc
                    rw [strongCount_applySweepOne_self s c0' hg hm hcn]
                  · rw [strongCount_applySweepOne_ne s c c0' hcc hx']
                    exact h0
          · intro c0 h0
            show c0 < s.nextCell + 1
            by_cases hx : c0 = s.nextCell
            · omega
            · by_cases hcc : c0 = c
              · omega
              · rw [strongCount_applySweepOne_ne s c c0 hcc hx] at h0
                have := i3 c0 h0
                omega

theorem loopState_zero :
    commitAsset (applyAllocNew (initStorage Nat Unit)) 0 42 = loopState 0 := by
  refine AssetStorage.ext ?_ ?_ ?_ ?_ ?_ ?_ ?_ ?_ ?_
  · funext i
    show Function.update (fun _ => none)
      (Function.update (fun _ => (0 : Nat)) 0 (0 % u32Mod) 0) (some (42, 0)) i =
      (if i == 0 then some (42, 0) else none)
    by_cases hi : i = 0
    · subst hi
      simp [Function.update]
    · have : (i == 0) = false := by
        simp only [beq_eq_false_iff_ne, ne_eq]
        exact hi
      rw [this]
      simp [Function.update, hi]
  · funext i
    show Function.update (fun _ => false)
      (Function.update (fun _ => (0 : Nat)) 0 (0 % u32Mod) 0) true i = (i == 0)
    by_cases hi : i = 0
    · subst hi
      simp [Function.update]
    · have : (i == 0) = false := by
        simp only [beq_eq_false_iff_ne, ne_eq]
        exact hi
      rw [this]
      simp [Function.update, hi]
  · rfl
  · rfl
  · rfl
  · rfl
  · funext c
    show Function.update (fun _ => (0 : Nat)) 0 (0 % u32Mod) c =
      (if c ≤ 0 then c else 0)
    by_cases hc : c = 0
    · subst hc
      simp [Function.update]
    · rw [if_neg (by omega)]
      simp [Function.update, hc]
  · rfl
  · funext c
    show Function.update (fun _ => (0 : Nat)) 0 1 c = (if c == 0 then 1 else 0)
    by_cases hc : c = 0
    · subst hc
      simp [Function.update]
    · have : (c == 0) = false := by
        simp only [beq_eq_false_iff_ne, ne_eq]
        exact hc
      rw [this]
      simp [Function.update, hc]

theorem loopState_succ (k : Nat) (hmod : k + 1 < u32Mod) :
    decExt (applyAllocNew (loopState k)) (k + 1) = loopState (k + 1) := by
  have hidk : (k + 1) % u32Mod = k + 1 := Nat.mod_eq_of_lt hmod
  have h32 : u32Mod = 4294967296 := by norm_num [u32Mod]
  have h64 : usizeMod = 18446744073709551616 := by norm_num [usizeMod]
  have hcnt : (k + 1 + 1) % usizeMod = k + 2 := Nat.mod_eq_of_lt (by omega)
  refine AssetStorage.ext ?_ ?_ ?_ ?_ ?_ ?_ ?_ ?_ ?_
  · rfl
  · rfl
  · rfl
  · exact hcnt
  · rfl
  · rfl
  · funext c
    show Function.update (fun c => if c ≤ k then c else 0) (k + 1) ((k + 1) % u32Mod) c =
      (if c ≤ k + 1 then c else 0)
    by_cases hc : c = k + 1
    · subst hc
      rw [Function.update_same, hidk, if_pos (le_refl _)]
    · rw [Function.update_noteq hc]
      by_cases hck : c ≤ k
      · rw [if_pos hck, if_pos (by omega)]
      · rw [if_neg hck, if_neg (by omega)]
  · rfl
  · funext c
    show Function.update (Function.update (fun c => if c == 0 then 1 else 0) (k + 1) 1)
      (k + 1) (Function.update (fun c => if c == 0 then (1 : Nat) else 0) (k + 1) 1 (k + 1) - 1)
      c = (if c == 0 then 1 else 0)
    by_cases hc : c = k + 1
    · subst hc
      rw [Function.update_same, Function.update_same]
      have hz : ((k + 1 : Nat) == 0) = false := by
        simp only [beq_eq_false_iff_ne, ne_eq]
        omega
      rw [hz]
      simp
    · rw [Function.update_noteq hc, Function.update_noteq hc]

theorem reach_loop (k : Nat) (hk : k ≤ u32Mod - 1) : StoreReach (2 + 2 * k) (loopState k) := by
  induction k with
  | zero =>
      have hstep : StoreReach 2 (commitAsset (applyAllocNew (initStorage Nat Unit)) 0 42) :=
        .step (.step .init (StoreStep.allocNew _ rfl)) (StoreStep.commitNew _ 0 42 (by decide))
      rw [loopState_zero] at hstep
      exact hstep
  | succ k ih =>
      have h32 : u32Mod = 4294967296 := by norm_num [u32Mod]
      have hk' : k ≤ u32Mod - 1 := by omega
      have hr := ih hk'
      have hmod : k + 1 < u32Mod := by omega
      have s1 : StoreStep (loopState k) (applyAllocNew (loopState k)) :=
        StoreStep.allocNew _ rfl
      have hext : (applyAllocNew (loopState k)).external (k + 1) = 1 :=
        Function.update_same _ _ _
      have s2 : StoreStep (applyAllocNew (loopState k))
          (decExt (applyAllocNew (loopState k)) (k + 1)) :=
        StoreStep.dropHandle _ (k + 1) (by rw [hext]; omega)
      have heq := loopState_succ k hmod
      have hreach : StoreReach (2 + 2 * k + 1 + 1) (loopState (k + 1)) := by
        rw [← heq]
        exact .step (.step hr s1) s2
      have harith : 2 + 2 * (k + 1) = 2 + 2 * k + 1 + 1 := by omega
      rw [harith]
      exact hreach

/-- Claim C1, amended.  Provided fewer than `2 ^ 32` events occur over
the store's lifetime (so the `as u32` truncation in `allocate_new` never
wraps), at most one live id cell exists per id number in every reachable
state: whenever the sweep phase has retired an id and a later
`allocate`/`insert` has re-populated it, the current generation's cell is
the only cell carrying that id with a non-zero strong count.  Every
other cell with that id — in particular the cell of any previously
handed-out handle for the retired generation — has strong count zero, so
no `Handle` object over it exists any more and any surviving
`WeakHandle` over it fails to upgrade: `get`/`contains` can never be
called through a stale handle.  (The claim as literally stated is false
once the 32-bit id space wraps — see the counterexample.) -/
theorem c1_no_stale_observation {n : Nat} {s : AssetStorage α ρ} (hr : StoreReach n s)
    (hn : n < u32Mod) (c c' : Nat) (hc : c < s.nextCell) (hc' : c' < s.nextCell)
    (hne : c ≠ c') (hid : s.cellId c = s.cellId c') (hlive : 0 < strongCount s c) :
    strongCount s c' = 0 ∧ upgradeWeak s c' = none := by
  obtain ⟨i1, i2, i3⟩ := storeReach_cellInv hr hn
  rcases i2 c c' hc hc' hne hid with h0 | h0
  · omega
  · refine ⟨h0, ?_⟩
    rw [upgradeWeak, h0]
    simp

/-- Claim C1, witness: after the four-event trace allocate, commit,
drop, sweep, cell 1 is the recycled live cell for id 0 and the retired
cell 0 is dead and un-upgradable. -/
theorem c1_witness :
    StoreReach 4 cexW4 ∧ 4 < u32Mod ∧
    (1 : Nat) < cexW4.nextCell ∧ (0 : Nat) < cexW4.nextCell ∧ (1 : Nat) ≠ 0 ∧
    cexW4.cellId 1 = cexW4.cellId 0 ∧ 0 < strongCount cexW4 1 ∧
    strongCount cexW4 0 = 0 ∧ upgradeWeak cexW4 0 = none := by
  have h1 : StoreStep (initStorage Nat Unit) cexW1 := StoreStep.allocNew _ rfl
  have h2 : StoreStep cexW1 cexW2 := StoreStep.commitNew cexW1 0 42 (by decide)
  have h3 : StoreStep cexW2 cexW3 := StoreStep.dropHandle cexW2 0 (by decide)
  have h4 : StoreStep cexW3 cexW4 := StoreStep.sweepOne cexW3 0 (by decide) (by decide)
  have hreach : StoreReach 4 cexW4 := .step (.step (.step (.step .init h1) h2) h3) h4
  have hmain := c1_no_stale_observation hreach (by decide) 1 0 (by decide) (by decide)
    (by decide) (by decide) (by decide)
  exact ⟨hreach, by decide, by decide, by decide, by decide, by decide, by decide,
    hmain.1, hmain.2⟩

/-- Claim C1, counterexample.  The claim states that once the sweep has
retired id `i` and a later `allocate`/`insert` re-populates `i`, `get`
and `contains` called with a previously handed-out handle carrying id
`i` still report absent.  Because `allocate_new` truncates the counter
`as u32`, after `2 ^ 32` allocations a fresh, still-live handle (cell
`cexN`) carries id 0; the sweep then retires id 0 (state `cexS6`, bitset
bit cleared), `allocate` pops the recycled handle and `insert`
re-populates id 0 (state `cexS8`) — and the old handle over `cexN`,
handed out before the sweep and still live, now observes the new asset:
`contains` is true and `get` returns `some 44`. -/
theorem c1_counterexample :
    StoreReach (2 + 2 * (u32Mod - 1) + 4) cexS6 ∧
    cexS6.cellId cexN = 0 ∧ 0 < strongCount cexS6 cexN ∧ cexN < cexS6.nextCell ∧
    containsId cexS6 0 = false ∧
    StoreReach (2 + 2 * (u32Mod - 1) + 6) cexS8 ∧
    0 < strongCount cexS8 cexN ∧
    contains cexS8 ⟨cexN⟩ = true ∧ getAsset cexS8 ⟨cexN⟩ = some 44 := by
  have hmid : StoreReach (2 + 2 * (u32Mod - 1)) cexMid := reach_loop (u32Mod - 1) (le_refl _)
  have s3 : StoreStep cexMid cexS3 := StoreStep.allocNew _ rfl
  have s4 : StoreStep cexS3 cexS4 := StoreStep.commitNew _ cexN 43 (by decide)
  have s5 : StoreStep cexS4 cexS5 := StoreStep.dropHandle _ 0 (by decide)
  have s6 : StoreStep cexS5 cexS6 := StoreStep.sweepOne _ 0 (by decide) (by decide)
  have s7 : StoreStep cexS6 cexS7 := StoreStep.allocPop _ cexM [] (by decide)
  have s8 : StoreStep cexS7 cexS8 := StoreStep.commitNew _ cexM 44 (by decide)
  have h6 : StoreReach (2 + 2 * (u32Mod - 1) + 4) cexS6 :=
    .step (.step (.step (.step hmid s3) s4) s5) s6
  have h8 : StoreReach (2 + 2 * (u32Mod - 1) + 6) cexS8 := .step (.step h6 s7) s8
  exact ⟨h6, by decide, by decide, by decide, by decide, h8, by decide, by decide, by decide⟩
